import Mathlib

/-!
# log_rotator: rotation scheduling and atomic file swap

A shallow embedding of `src/main.cpp` and theorems about it.

Conventions of the embedding.

* Text (`std::string`) is a list of characters.
* A `system_clock::time_point` is an integer count of nanoseconds since the
  epoch, held in 64 bits: arithmetic that produces one is reduced to 64 bits
  in two's complement (`wrap_int64`). A `time_t` is an integer count of
  seconds since the epoch.
* The C library's view of the host's time zone is a `Zone`: the offset of
  local time from UTC and the daylight-saving flag as functions of the
  instant, and `mktime` as the function the host provides.
* The process-wide globals of `main.cpp` are the fields of `State`, together
  with the part of the outside world the program acts on: the file system and
  the number of clock readings taken so far.
* The host is an `Env`: the local time zone and the sequence of values that
  successive calls of `system_clock::now()` return.
* A C++ exception is the `Res.thrown` outcome; it carries the state reached
  when the exception left the function.
* Diagnostic output (`verbose`, `cerr`) has no effect on any other state and
  is not modelled.
-/

namespace LogRotator

/-- Text: the characters of a `std::string`. -/
abbrev Str := List Char

/-! ## The C library: calendar, `localtime_r`, `mktime` -/

/-- Proleptic Gregorian date `(year, month 1..12, day 1..31)` of a day number
counted from 1970-01-01. -/
def civil_from_days (z0 : Int) : Int × Int × Int :=
  let z := z0 + 719468
  let era := z / 146097
  let doe := z - era * 146097
  let yoe := (doe - doe / 1460 + doe / 36524 - doe / 146096) / 365
  let y := yoe + era * 400
  let doy := doe - (365 * yoe + yoe / 4 - yoe / 100)
  let mp := (5 * doy + 2) / 153
  let d := doy - (153 * mp + 2) / 5 + 1
  let m := if mp < 10 then mp + 3 else mp - 9
  (if m ≤ 2 then y + 1 else y, m, d)

/-- Day number counted from 1970-01-01 of a proleptic Gregorian date; a day of
the month outside the month carries over linearly, as `mktime` normalises it. -/
def days_from_civil (y0 m d : Int) : Int :=
  let y := if m ≤ 2 then y0 - 1 else y0
  let era := y / 400
  let yoe := y - era * 400
  let doy := (153 * (if m > 2 then m - 3 else m + 9) + 2) / 5 + d - 1
  let doe := yoe * 365 + yoe / 4 - yoe / 100 + doy
  era * 146097 + doe - 719468

/-- The fields of `struct tm` that the program reads or writes. `tm_mon` counts
from 0 and `tm_year` from 1900, as in C; `tm_isdst` is the daylight-saving flag
(`localtime_r` only ever stores 0 or 1 in it). -/
structure tm where
  tm_sec : Int
  tm_min : Int
  tm_hour : Int
  tm_mday : Int
  tm_mon : Int
  tm_year : Int
  tm_isdst : Bool

/-- The host's local time zone as its C library presents it: for every
instant (a `time_t`) the offset of local time from UTC in seconds (`tm_gmtoff`)
and whether daylight-saving time is in effect (`tm_isdst`), and the library's
`mktime` for this zone, as a function of the fields it reads. The offset may
change from one instant to the next for any reason, a daylight-saving change
or a change of the zone's standard time. -/
structure Zone where
  gmtoff : Int → Int
  isdst : Int → Bool
  mktime : tm → Int

/-- C library `localtime_r`: the broken-down local time of a `time_t`. -/
def localtime_r (z : Zone) (tt : Int) : tm :=
  let isdst := z.isdst tt
  let l := tt + z.gmtoff tt
  let days := l / 86400
  let rem := l % 86400
  let ymd := civil_from_days days
  { tm_sec := rem % 60
    tm_min := rem / 60 % 60
    tm_hour := rem / 3600
    tm_mday := ymd.2.2
    tm_mon := ymd.2.1 - 1
    tm_year := ymd.1 - 1900
    tm_isdst := isdst }

/-- The least value of a 64-bit signed integer. -/
def int64_min : Int := -9223372036854775808

/-- The greatest value of a 64-bit signed integer. -/
def int64_max : Int := 9223372036854775807

/-- The 64-bit two's complement value of an integer: what 64-bit signed
arithmetic stores for a result, which it leaves alone exactly when the result
lies between `int64_min` and `int64_max`. -/
def wrap_int64 (x : Int) : Int :=
  (x + 9223372036854775808) % 18446744073709551616 - 9223372036854775808

/-- `system_clock::to_time_t`: a `duration_cast` to whole seconds, which
truncates toward zero. -/
def to_time_t (now : Int) : Int := Int.tdiv now 1000000000

/-- `system_clock::from_time_t`: the seconds are multiplied by `10^9` in the
64-bit nanosecond count of the clock. -/
def from_time_t (t : Int) : Int := wrap_int64 (t * 1000000000)

/-- One `days_t(1)`, a `duration<int, ratio<60*60*24>>`, in nanoseconds. -/
def days_t_1 : Int := 60 * 60 * 24 * 1000000000

/-! ## Text: stream formatting, `find`, `replace`, the time point pattern -/

/-- The character of a decimal digit. -/
def digit_char (d : Nat) : Char := Char.ofNat (48 + d)

/-- Decimal digits of `n` in front of `acc`; `fuel` bounds the digit count. -/
def decimal_aux : Nat → Nat → Str → Str
  | 0, _, acc => acc
  | fuel + 1, n, acc =>
    if n < 10 then digit_char n :: acc
    else decimal_aux fuel (n / 10) (digit_char (n % 10) :: acc)

/-- Decimal text of a natural number. -/
def decimal (n : Nat) : Str := decimal_aux (n + 1) n []

/-- `os << dec << setw(w) << setfill('0') << n`: the decimal text of `n`,
filled on the left with `0` up to width `w` (the default adjustment is to the
right, so a minus sign comes after the fill). -/
def put_int (w : Nat) (n : Int) : Str :=
  List.leftpad w '0' (if n < 0 then '-' :: decimal (-n).toNat else decimal n.toNat)

/-- Lines 114-121 of `new_output_file_stream`: the text `t` built in `oss`. -/
def timestamp_text (tm_now : tm) : Str :=
  put_int 4 (tm_now.tm_year + 1900) ++ "-".toList
    ++ put_int 2 (tm_now.tm_mon + 1) ++ "-".toList
    ++ put_int 2 tm_now.tm_mday ++ "_".toList
    ++ put_int 2 tm_now.tm_hour ++ "-".toList
    ++ put_int 2 tm_now.tm_min ++ "-".toList
    ++ put_int 2 tm_now.tm_sec

/-- The placeholder token. -/
def placeholder : Str := "%TS%".toList

/-- `std::string::find(needle)`: the least position at which `needle` starts,
`none` for `npos`. -/
def find (needle : Str) : Str → Option Nat
  | [] => if needle.isPrefixOf [] then some 0 else none
  | c :: cs =>
    if needle.isPrefixOf (c :: cs) then some 0
    else (find needle cs).map (· + 1)

/-- `std::string::replace(p, n, t)` for `p` within the string. -/
def replace (s : Str) (p n : Nat) (t : Str) : Str :=
  s.take p ++ t ++ s.drop (p + n)

/-- Lines 121-126 of `new_output_file_stream`: the file name derived from the
pattern and the formatted time, `none` when the placeholder is missing (where
the code throws). -/
def derive_file_name (pattern : Str) (tm_now : tm) : Option Str :=
  let t := timestamp_text tm_now
  match find placeholder pattern with
  | none => none
  | some p => some (replace pattern p 4 t)

/-- The character class `\d`. -/
def is_digit (c : Char) : Bool := decide (48 ≤ c.toNat ∧ c.toNat ≤ 57)

/-- `std::stoi` on a text of decimal digits. -/
def stoi (s : Str) : Int :=
  s.foldl (fun acc c => 10 * acc + ((c.toNat : Int) - 48)) 0

/-- `regex_match(timepoint, sm, reg_timepoint)` for the pattern
`^(\d{2})(:(\d{2}))?(:(\d{2}))?$`: on a match the texts of the groups
`sm[1]`, `sm[3]` and `sm[5]` (empty for a group that did not take part). -/
def match_timepoint (timepoint : Str) : Option (Str × Str × Str) :=
  match timepoint with
  | [a, b] =>
    if is_digit a && is_digit b then some ([a, b], [], []) else none
  | [a, b, c1, c, d] =>
    if is_digit a && is_digit b && (c1 == ':') && is_digit c && is_digit d
    then some ([a, b], [c, d], []) else none
  | [a, b, c1, c, d, c2, e, f] =>
    if is_digit a && is_digit b && (c1 == ':') && is_digit c && is_digit d
      && (c2 == ':') && is_digit e && is_digit f
    then some ([a, b], [c, d], [e, f]) else none
  | _ => none

/-! ## Program state -/

/-- The files of the host as the program can observe and change them:
the content of every regular file, whether opening a path for appending
succeeds, and whether renaming one path to another succeeds. -/
structure FileSystem where
  file : Str → Option Str
  can_open : Str → Bool
  can_rename : Str → Str → Bool

/-- An `std::ofstream`: the path of the file it is attached to (`none` when
it is not open) and what its members `good()` and `bad()` return. `good()` is
false as soon as `failbit` or `badbit` is set; `bad()` tells whether `badbit`
is set. -/
structure ofstream where
  path : Option Str
  good : Bool
  bad : Bool
deriving DecidableEq

/-- `ofstream::is_open`. -/
def ofstream.is_open (f : ofstream) : Bool := f.path.isSome

/-- A record of the history of a run; kept beside the state, never read by
the program. -/
inductive Event where
  /-- The sink of a final path was opened; with the clock reading the name
  was derived from and the rotation instant in force. -/
  | opened (now : Int) (due : Int) (final_path : Str)
  /-- A line was handed to the output stream. -/
  | wrote (line : Str)
  /-- The sink of a final path was renamed to it; with the published content. -/
  | published (final_path : Str) (content : Str)
deriving DecidableEq

/-- The globals of `main.cpp` (same names), the file system, the number of
clock readings taken and the history of the run. -/
structure State where
  hour_rotate : Int
  min_rotate : Int
  sec_rotate : Int
  next_rotation : Int
  output_directory_name : Str
  output_file_name_pattern : Str
  output_file_stream : ofstream
  output_file_path : Str
  fs : FileSystem
  reads : Nat
  history : List Event

/-- The host: its time zone and the values of successive
`system_clock::now()` calls. -/
structure Env where
  zone : Zone
  clock : Nat → Int

/-- The exceptions of the program. -/
inductive Err where
  | invalid_timepoint
  | missing_placeholder
  | unable_to_open
  | stream_bad
  | rename_failed
  | parameter_d_missing
  | parameter_f_missing
deriving DecidableEq

/-- Outcome of a function that may throw. -/
inductive Res where
  | ok (s : State)
  | thrown (e : Err) (s : State)

/-- The state an outcome leaves behind. -/
def Res.state : Res → State
  | .ok s => s
  | .thrown _ s => s

/-- Whether an exception left the function. -/
def Res.err : Res → Option Err
  | .ok _ => none
  | .thrown e _ => some e

/-- Sequencing: the next statement runs unless an exception was thrown. -/
def Res.andThen (r : Res) (f : State → Res) : Res :=
  match r with
  | .ok s => f s
  | .thrown e s => .thrown e s

/-! ## The functions of `main.cpp` -/

/-- Lines 60-63 of `calc_next_rotation`: `tm_rotate`, the copy of `tm_now`
with the rotation time as time of day. -/
def tm_rotate (tm_now : tm) (hour_rotate min_rotate sec_rotate : Int) : tm :=
  { tm_now with tm_hour := hour_rotate, tm_min := min_rotate, tm_sec := sec_rotate }

/-- Lines 54-72 of `calc_next_rotation`: the instant `rotate`, from the
`time_t` of `now` and the rotation time. The addition of `days_t(1)` is an
addition of 64-bit nanosecond counts. -/
def rotate_instant (z : Zone) (hour_rotate min_rotate sec_rotate : Int) (tt : Int) : Int :=
  let tm_now := localtime_r z tt
  let rotate := from_time_t (z.mktime (tm_rotate tm_now hour_rotate min_rotate sec_rotate))
  if !(decide (hour_rotate > tm_now.tm_hour)
        || (decide (hour_rotate = tm_now.tm_hour) && decide (min_rotate > tm_now.tm_min))
        || (decide (hour_rotate = tm_now.tm_hour) && decide (min_rotate = tm_now.tm_min)
              && decide (sec_rotate > tm_now.tm_sec)))
  then wrap_int64 (rotate + days_t_1)
  else rotate

/-- `calc_next_rotation` (lines 50-73). -/
def calc_next_rotation (env : Env) (s : State) : State :=
  let now := env.clock s.reads
  let tt := to_time_t now
  { s with
    reads := s.reads + 1
    next_rotation := rotate_instant env.zone s.hour_rotate s.min_rotate s.sec_rotate tt }

/-- `rotate_at` (lines 91-102). -/
def rotate_at (env : Env) (timepoint : Str) (s : State) : Res :=
  match match_timepoint timepoint with
  | none => .thrown .invalid_timepoint s
  | some (h, _min, _sec) =>
    .ok (calc_next_rotation env
      { s with
        hour_rotate := stoi h
        min_rotate := if _min.isEmpty then 0 else stoi _min
        sec_rotate := if _sec.isEmpty then 0 else stoi _sec })

/-- `ofstream::open(path, ios::out | ios::app)` on the file system: the file
is created empty when it does not exist and kept when it does. -/
def FileSystem.open_app (fs : FileSystem) (p : Str) : FileSystem :=
  { fs with file := fun q => if q = p then some ((fs.file p).getD []) else fs.file q }

/-- `filesystem::rename(src, dst)` when it succeeds. -/
def FileSystem.rename (fs : FileSystem) (src dst : Str) : FileSystem :=
  { fs with file := fun q => if q = dst then fs.file src else if q = src then none else fs.file q }

/-- Appending text to the file at a path; nothing appears at a path that has
no file. -/
def FileSystem.append (fs : FileSystem) (p : Str) (text : Str) : FileSystem :=
  { fs with file := fun q => if q = p then (fs.file p).map (· ++ text) else fs.file q }

/-- The suffix of a file that is still being written. -/
def part : Str := ".part".toList

/-- `new_output_file_stream` (lines 104-137). A successful `open` clears the
error state of the stream; a failed one sets `failbit`, after which `good()`
is false and `bad()` is as before. -/
def new_output_file_stream (env : Env) (s : State) : Res :=
  let now := env.clock s.reads
  let s := { s with reads := s.reads + 1 }
  let tt := to_time_t now
  let tm_now := localtime_r env.zone tt
  match derive_file_name s.output_file_name_pattern tm_now with
  | none => .thrown .missing_placeholder s
  | some output_file_name =>
    let s := { s with output_file_path := s.output_directory_name ++ "/".toList ++ output_file_name }
    let s :=
      if s.output_file_stream.is_open
      then { s with output_file_stream := { s.output_file_stream with path := none } }
      else s
    if s.fs.can_open (s.output_file_path ++ part) then
      let s :=
        { s with
          fs := s.fs.open_app (s.output_file_path ++ part)
          output_file_stream :=
            { path := some (s.output_file_path ++ part), good := true, bad := false }
          history := s.history ++ [Event.opened now s.next_rotation s.output_file_path] }
      if s.output_file_stream.bad then .thrown .stream_bad s else .ok s
    else
      .thrown .unable_to_open
        { s with output_file_stream := { s.output_file_stream with good := false } }

/-- `close_output_file_stream` (lines 139-148). -/
def close_output_file_stream (s : State) : Res :=
  if !s.output_file_stream.is_open then .ok s
  else
    let s := { s with output_file_stream := { s.output_file_stream with path := none } }
    let src := s.output_file_path ++ part
    match s.fs.file src with
    | none => .thrown .rename_failed s
    | some content =>
      if s.fs.can_rename src s.output_file_path then
        .ok { s with
              fs := s.fs.rename src s.output_file_path
              history := s.history ++ [Event.published s.output_file_path content] }
      else .thrown .rename_failed s

/-- Line 227, `output_file_stream << input_line << endl`: no exception mask is
set on the stream, so the statement never throws. On a stream that is not
good the sentry of every output function fails: nothing is written, `good()`
stays false and `bad()` stays as it was (this is the stream after a failed
`open`, which carries `failbit`). On a good stream that is not open the
output itself fails, which sets `badbit`. -/
def write_line (s : State) (input_line : Str) : State :=
  match s.output_file_stream.path with
  | none =>
    if s.output_file_stream.good
    then { s with output_file_stream := { s.output_file_stream with good := false, bad := true } }
    else s
  | some p =>
    if s.output_file_stream.good
    then
      { s with
        fs := s.fs.append p (input_line ++ [Char.ofNat 10])
        history := s.history ++ [Event.wrote input_line] }
    else s

/-- Lines 223-225: the rotation sequence. -/
def rotation (env : Env) (s : State) : Res :=
  (close_output_file_stream s).andThen fun s =>
    new_output_file_stream env (calc_next_rotation env s)

/-- Lines 221-227, the body of the driving loop for one line that was read:
what the `try` block does. -/
def loop_body (env : Env) (s : State) (input_line : Str) : Res :=
  let now := env.clock s.reads
  let s := { s with reads := s.reads + 1 }
  let r := if now > s.next_rotation then rotation env s else .ok s
  r.andThen fun s => .ok (write_line s input_line)

/-- Lines 211-232: the driving loop over the lines that reach line 221, that
is the lines `getline` returns before it sets `eof` (a last line without a
newline sets `eof` and is not processed); an exception is caught and the loop
goes on with the next line. -/
def main_loop (env : Env) (s : State) : List Str → State
  | [] => s
  | input_line :: rest => main_loop env (loop_body env s input_line).state rest

/-- Lines 195-204: the checks and the first schedule and open. -/
def startup (env : Env) (s : State) : Res :=
  if s.output_directory_name.isEmpty then .thrown .parameter_d_missing s
  else if s.output_file_name_pattern.isEmpty then .thrown .parameter_f_missing s
  else new_output_file_stream env (calc_next_rotation env s)

/-- Lines 195-244 of `main`, after the options: start, copy the lines, close
and publish. -/
def run (env : Env) (s : State) (lines : List Str) : Res :=
  (startup env s).andThen fun s => close_output_file_stream (main_loop env s lines)

/-! ## The words of the specification -/

/-- Two-digit zero-padded decimal text of a number in 0..99. -/
def two_digits (n : Int) : Str :=
  [digit_char (n.toNat / 10), digit_char (n.toNat % 10)]

/-- Four-digit zero-padded decimal text of a number in 0..9999. -/
def four_digits (n : Int) : Str :=
  [digit_char (n.toNat / 1000), digit_char (n.toNat / 100 % 10),
    digit_char (n.toNat / 10 % 10), digit_char (n.toNat % 10)]

/-- The text `YYYY-MM-DD_HH-MM-SS` of a broken-down time, zero-padded, with
a four-digit year. -/
def stamp (t : tm) : Str :=
  four_digits (t.tm_year + 1900) ++ ['-'] ++ two_digits (t.tm_mon + 1) ++ ['-']
    ++ two_digits t.tm_mday ++ ['_'] ++ two_digits t.tm_hour ++ ['-']
    ++ two_digits t.tm_min ++ ['-'] ++ two_digits t.tm_sec

/-- The local day number of a `time_t`: whole days of local time since
1970-01-01. -/
def local_day (z : Zone) (tt : Int) : Int := (tt + z.gmtoff tt) / 86400

/-- The seconds from 1970-01-01 00:00:00 to the date and time of day that the
fields of a broken-down time spell, read without any time zone. An instant
`x` has this local time when `x + gmtoff x` equals it. -/
def local_seconds (t : tm) : Int :=
  days_from_civil (t.tm_year + 1900) (t.tm_mon + 1) t.tm_mday * 86400
    + t.tm_hour * 3600 + t.tm_min * 60 + t.tm_sec

/-- The rotation time `h:m:s` is strictly later than the time of day of `t`
in lexicographic order on (hour, minute, second). -/
def later (h m s : Int) (t : tm) : Prop :=
  h > t.tm_hour ∨ (h = t.tm_hour ∧ m > t.tm_min)
    ∨ (h = t.tm_hour ∧ m = t.tm_min ∧ s > t.tm_sec)

instance (h m s : Int) (t : tm) : Decidable (later h m s t) := by
  unfold later
  exact inferInstance

/-- The calendar date `(year, month, day)` of a broken-down time. -/
def date_of (t : tm) : Int × Int × Int := (t.tm_year + 1900, t.tm_mon + 1, t.tm_mday)

/-- The calendar date one day after a date. -/
def next_day (d : Int × Int × Int) : Int × Int × Int :=
  civil_from_days (days_from_civil d.1 d.2.1 d.2.2 + 1)

/-- The open events of a history, in order: clock reading, rotation instant
in force, final path. -/
def opens : List Event → List (Int × Int × Str)
  | [] => []
  | .opened now due p :: es => (now, due, p) :: opens es
  | .wrote _ :: es => opens es
  | .published _ _ :: es => opens es

/-- Lexicographic order on text by character code, as `std::string`
compares. -/
def lex_lt : Str → Str → Bool
  | [], [] => false
  | [], _ :: _ => true
  | _ :: _, [] => false
  | a :: as, b :: bs =>
    if a.toNat < b.toNat then true
    else if b.toNat < a.toNat then false
    else lex_lt as bs

/-- The timestamp text substituted at an open event that read the clock at
`now`. -/
def open_text (z : Zone) (now : Int) : Str :=
  timestamp_text (localtime_r z (to_time_t now))

/-- The invariant of the order of the open events: the rotation instant
recorded with an open is still not after the current one or the clock has
already been read after it; every open read the clock after the rotation
instants recorded with the opens before it. -/
def order_inv (env : Env) (s : State) : Prop :=
  (∀ e ∈ opens s.history, e.2.1 ≤ s.next_rotation ∨ ∃ i, i < s.reads ∧ e.2.1 < env.clock i) ∧
  (opens s.history).Pairwise (fun a b => a.2.1 < b.1)

/-- Calendar order of broken-down times: lexicographic on year, month, day,
hour, minute, second. -/
def tm_before (a b : tm) : Prop :=
  a.tm_year < b.tm_year ∨ (a.tm_year = b.tm_year ∧
    (a.tm_mon < b.tm_mon ∨ (a.tm_mon = b.tm_mon ∧
      (a.tm_mday < b.tm_mday ∨ (a.tm_mday = b.tm_mday ∧
        (a.tm_hour < b.tm_hour ∨ (a.tm_hour = b.tm_hour ∧
          (a.tm_min < b.tm_min ∨ (a.tm_min = b.tm_min ∧ a.tm_sec < b.tm_sec)))))))))

/-- The invariant of the derived names: directory and pattern are the given
ones, and every open event read its instant from the clock and has as final
path the directory, a slash, and the pattern with its first placeholder
replaced by the text of that instant. -/
def names_inv (env : Env) (dir pattern : Str) (s : State) : Prop :=
  s.output_directory_name = dir ∧ s.output_file_name_pattern = pattern ∧
  ∀ e ∈ opens s.history, (∃ i, e.1 = env.clock i) ∧
    ∃ p, find placeholder pattern = some p ∧
      e.2.2 = dir ++ "/".toList ++ replace pattern p 4 (open_text env.zone e.1)

/-- The invariant of a run with a given configuration. -/
def run_inv (env : Env) (dir pattern : Str) (s : State) : Prop :=
  order_inv env s ∧ names_inv env dir pattern s

/-- The `mktime` of a host whose local time is at one fixed offset from UTC,
where every local time belongs to one instant. -/
def mktime_fixed (off : Int) (t : tm) : Int := local_seconds t - off

/-- A host on UTC without daylight saving. -/
def utc : Zone := { gmtoff := fun _ => 0, isdst := fun _ => false, mktime := mktime_fixed 0 }

/-- A directory in which nothing exists yet and every operation succeeds. -/
def empty_fs : FileSystem :=
  { file := fun _ => none, can_open := fun _ => true, can_rename := fun _ _ => true }

/-- The globals as `main.cpp` initialises them (the initial value of
`next_rotation` is overwritten before it is read), on a given file system. -/
def initial_state (fs : FileSystem) : State :=
  { hour_rotate := 0
    min_rotate := 0
    sec_rotate := 0
    next_rotation := 0
    output_directory_name := "./dump".toList
    output_file_name_pattern := "%TS%.td".toList
    output_file_stream := { path := none, good := true, bad := false }
    output_file_path := []
    fs := fs
    reads := 0
    history := [] }

/-- The broken-down time 2024-01-02 03:04:05. -/
def tm_2024_01_02 : tm :=
  { tm_sec := 5, tm_min := 4, tm_hour := 3, tm_mday := 2, tm_mon := 0, tm_year := 124,
    tm_isdst := false }

/-- A host on Central European Time in 2024: UTC+1, and UTC+2 with the
daylight-saving flag set from 2024-03-31 01:00:00 UTC until 2024-10-27
01:00:00 UTC. Its `mktime` reads the local time with the offset that
`tm_isdst` asks for: for a local time of 2024 that exists once and carries
the flag in effect at it, this is the instant with that local time; for a
local time of the repeated hour it is the one of the two instants that the
flag selects. -/
def cet_2024 : Zone :=
  { gmtoff := fun t => if 1711846800 ≤ t ∧ t < 1729990800 then 7200 else 3600
    isdst := fun t => decide (1711846800 ≤ t ∧ t < 1729990800)
    mktime := fun t => local_seconds t - (if t.tm_isdst then 7200 else 3600) }

/-- A host on Volgograd time around 2020-12-27, the day the zone's standard
time changed: UTC+4 until 2020-12-26 22:00:00 UTC (02:00 local), UTC+3 from
then on, never daylight saving. Its `mktime` returns the instant that has the
given local time, which for a local time before 01:00 on 2020-12-27 is the
one at UTC+4 and for a local time from 02:00 on is the one at UTC+3 (a local
time of the repeated hour between them belongs to two instants, of which the
earlier is taken here). -/
def volgograd_2020 : Zone :=
  { gmtoff := fun t => if t < 1609020000 then 14400 else 10800
    isdst := fun _ => false
    mktime := fun t =>
      if local_seconds t - 14400 < 1609020000 then local_seconds t - 14400
      else local_seconds t - 10800 }

/-- The initial globals with the rotation time set to 10:00:00. -/
def state_10_00_00 : State := { initial_state empty_fs with hour_rotate := 10 }

/-- A clock that reads the same instant every time. -/
def clock_at (now : Int) : Nat → Int := fun _ => now

/-- A clock whose successive readings are the entries of a list, and the last
entry from then on. -/
def clock_of (readings : List Int) : Nat → Int :=
  fun i => readings.getD i (readings.getLastD 0)

/-- A UTC host started on 2024-01-02 at 03:04:04: the schedule is computed
then, the output is opened at 03:04:05 and opened once more at 03:04:06. -/
def env_reopen : Env :=
  ⟨utc, clock_of [1704164644000000000, 1704164645000000000, 1704164646000000000]⟩

/-- The state after start-up on `env_reopen` and one line `a` written. -/
def state_reopen : State :=
  write_line (startup env_reopen (initial_state empty_fs)).state ['a']

/-- A directory in which only the sink of the first output can be opened. -/
def fs_one_sink : FileSystem :=
  { file := fun _ => none
    can_open := fun p => decide (p = "./dump/2024-01-02_09-59-59.td.part".toList)
    can_rename := fun _ _ => true }

/-- A UTC host on 2024-01-02: schedule computed at 09:59:58, output opened at
09:59:59, a line read at 09:59:59.5, a line read at 10:00:00.5 (the rotation
reads the clock at 10:00:00.6 and 10:00:00.7), a line read at 10:00:01. -/
def env_failed_open : Env :=
  ⟨utc, clock_of [1704189598000000000, 1704189599000000000, 1704189599500000000,
    1704189600500000000, 1704189600600000000, 1704189600700000000, 1704189601000000000]⟩

/-- The state on `env_failed_open` after start-up with rotation time 10:00:00
and the first two lines. -/
def state_failed_open : State :=
  main_loop env_failed_open
    (startup env_failed_open { initial_state fs_one_sink with hour_rotate := 10 }).state
    [['1'], ['2']]

/-- A UTC host on 2024-01-02 with rotation time 10:00:00: the schedule is
computed at 09:59:59.5, the output is opened at 10:00:00.0 exactly, a line is
read at 10:00:00.0 exactly, a second line is read at 10:00:00.5, and the
rotation it triggers reads the clock at 10:00:00.6 and 10:00:00.7. -/
def env_same_second : Env :=
  ⟨utc, clock_of [1704189599500000000, 1704189600000000000, 1704189600000000000,
    1704189600500000000, 1704189600600000000, 1704189600700000000]⟩

/-- The state on `env_same_second` after start-up with rotation time
10:00:00 on an empty directory. -/
def state_same_second : State :=
  (startup env_same_second state_10_00_00).state

/-- A Central European host on 2024-10-27, the night clocks are set back
from 03:00 summer time to 02:00: the schedule is computed at 02:30:00 summer
time, the output is opened a second later, a line is read at 02:30:02, a line
is read at 02:05:00 winter time (35 minutes after the first open), and the
rotation it triggers reads the clock at 02:05:01 and 02:05:02. -/
def env_fall_back : Env :=
  ⟨cet_2024, clock_of [1729989000000000000, 1729989001000000000, 1729989002000000000,
    1729991100000000000, 1729991101000000000, 1729991102000000000, 1729991103000000000]⟩

/-- The initial globals with the rotation time set to 02:45:00. -/
def state_02_45_00 : State := { initial_state empty_fs with hour_rotate := 2, min_rotate := 45 }

/-- A Central European host in winter, on 2024-01-02, whose clock reads
10:59:58.0 local time first and half a second more at every further
reading. -/
def env_winter : Env :=
  ⟨cet_2024, fun i => 1704189598000000000 + 500000000 * (i : Int)⟩

/-- The initial globals with the rotation time set to 11:00:00. -/
def state_11_00_00 : State := { initial_state empty_fs with hour_rotate := 11 }

/-- Four input lines. -/
def four_lines : List Str := [['1'], ['2'], ['3'], ['4']]

/-! # Theorems -/

/-! ## Text lemmas -/

theorem isPrefixOf_iff (a b : Str) : a.isPrefixOf b = true ↔ ∃ t, b = a ++ t := by
  induction a generalizing b with
  | nil => simp
  | cons x xs ih =>
    cases b with
    | nil => simp
    | cons y ys =>
      simp only [List.isPrefixOf, Bool.and_eq_true, beq_iff_eq, ih, List.cons_append,
        List.cons.injEq]
      constructor
      · rintro ⟨rfl, t, rfl⟩
        exact ⟨t, rfl, rfl⟩
      · rintro ⟨t, rfl, rfl⟩
        exact ⟨rfl, t, rfl⟩

theorem find_eq_some (needle : Str) (s : Str) (p : Nat) (h : find needle s = some p) :
    ∃ pre post, s = pre ++ needle ++ post ∧ pre.length = p ∧
      ∀ pre2 post2, s = pre2 ++ needle ++ post2 → p ≤ pre2.length := by
  induction s generalizing p with
  | nil =>
    simp only [find] at h
    split at h
    · rename_i hp
      obtain ⟨t, ht⟩ := (isPrefixOf_iff _ _).1 hp
      cases h
      exact ⟨[], t, by simpa using ht, rfl, fun _ _ _ => Nat.zero_le _⟩
    · cases h
  | cons c cs ih =>
    simp only [find] at h
    split at h
    · rename_i hp
      obtain ⟨t, ht⟩ := (isPrefixOf_iff _ _).1 hp
      cases h
      exact ⟨[], t, by simpa using ht, rfl, fun _ _ _ => Nat.zero_le _⟩
    · rename_i hp
      cases hq : find needle cs with
      | none => simp [hq] at h
      | some q =>
        simp only [hq, Option.map_some', Option.some.injEq] at h
        obtain ⟨pre, post, hs, hl, hmin⟩ := ih q hq
        refine ⟨c :: pre, post, by simp [hs], by simp [hl, h], ?_⟩
        intro pre2 post2 h2
        cases pre2 with
        | nil =>
          exfalso
          apply hp
          exact (isPrefixOf_iff _ _).2 ⟨post2, by simpa using h2⟩
        | cons d pre3 =>
          simp only [List.cons_append, List.cons.injEq] at h2
          have := hmin pre3 post2 (by simpa using h2.2)
          simp only [List.length_cons]
          omega

theorem find_eq_none (needle : Str) (s : Str) (h : find needle s = none) :
    ∀ pre post, s ≠ pre ++ needle ++ post := by
  induction s with
  | nil =>
    simp only [find] at h
    split at h
    · cases h
    · rename_i hp
      intro pre post he
      apply hp
      cases pre with
      | nil => exact (isPrefixOf_iff _ _).2 ⟨post, by simpa using he⟩
      | cons d pre3 => simp at he
  | cons c cs ih =>
    simp only [find] at h
    split at h
    · cases h
    · rename_i hp
      cases hq : find needle cs with
      | some q => simp [hq] at h
      | none =>
        intro pre post he
        cases pre with
        | nil => exact hp ((isPrefixOf_iff _ _).2 ⟨post, by simpa using he⟩)
        | cons d pre3 =>
          simp only [List.cons_append, List.cons.injEq] at he
          exact ih hq pre3 post (by simpa using he.2)

theorem replace_at (pre mid post t : Str) :
    replace (pre ++ mid ++ post) pre.length mid.length t = pre ++ t ++ post := by
  simp [replace, List.take_append_eq_append_take, List.drop_append_eq_append_drop]

theorem decimal_aux_small (fuel n : Nat) (acc : Str) (h : n < 10) :
    decimal_aux (fuel + 1) n acc = digit_char n :: acc := by
  simp [decimal_aux, h]

theorem decimal_aux_step (fuel n : Nat) (acc : Str) (h : 10 ≤ n) :
    decimal_aux (fuel + 1) n acc = decimal_aux fuel (n / 10) (digit_char (n % 10) :: acc) := by
  have h2 : ¬ n < 10 := by omega
  simp [decimal_aux, h2]

theorem decimal_lt_10 (n : Nat) (h : n < 10) : decimal n = [digit_char n] := by
  unfold decimal
  rw [decimal_aux_small _ _ _ h]

theorem decimal_lt_100 (n : Nat) (h1 : 10 ≤ n) (h : n < 100) :
    decimal n = [digit_char (n / 10), digit_char (n % 10)] := by
  obtain ⟨k, rfl⟩ : ∃ k, n = k + 1 := ⟨n - 1, by omega⟩
  unfold decimal
  rw [decimal_aux_step _ _ _ h1, decimal_aux_small _ _ _ (by omega)]

theorem decimal_lt_1000 (n : Nat) (h1 : 100 ≤ n) (h : n < 1000) :
    decimal n = [digit_char (n / 100), digit_char (n / 10 % 10), digit_char (n % 10)] := by
  obtain ⟨k, rfl⟩ : ∃ k, n = k + 2 := ⟨n - 2, by omega⟩
  unfold decimal
  rw [decimal_aux_step _ _ _ (by omega), decimal_aux_step _ _ _ (by omega),
    decimal_aux_small _ _ _ (by omega)]
  have e : (k + 2) / 10 / 10 = (k + 2) / 100 := by omega
  rw [e]

theorem decimal_lt_10000 (n : Nat) (h1 : 1000 ≤ n) (h : n < 10000) :
    decimal n = [digit_char (n / 1000), digit_char (n / 100 % 10), digit_char (n / 10 % 10),
      digit_char (n % 10)] := by
  obtain ⟨k, rfl⟩ : ∃ k, n = k + 3 := ⟨n - 3, by omega⟩
  unfold decimal
  rw [decimal_aux_step _ _ _ (by omega), decimal_aux_step _ _ _ (by omega),
    decimal_aux_step _ _ _ (by omega), decimal_aux_small _ _ _ (by omega)]
  have e : (k + 3) / 10 / 10 / 10 = (k + 3) / 1000 := by omega
  have e2 : (k + 3) / 10 / 10 % 10 = (k + 3) / 100 % 10 := by omega
  rw [e, e2]

theorem put_int_two (n : Int) (h0 : 0 ≤ n) (h1 : n ≤ 99) : put_int 2 n = two_digits n := by
  have hn : ¬ n < 0 := by omega
  simp only [put_int, hn, if_false, two_digits]
  by_cases h : n.toNat < 10
  · rw [decimal_lt_10 _ h]
    have : n.toNat / 10 = 0 := by omega
    have h' : n.toNat % 10 = n.toNat := by omega
    simp [List.leftpad, this, h', digit_char]
  · rw [decimal_lt_100 _ (by omega) (by omega)]
    simp [List.leftpad]

theorem put_int_four (n : Int) (h0 : 0 ≤ n) (h1 : n ≤ 9999) : put_int 4 n = four_digits n := by
  have hn : ¬ n < 0 := by omega
  simp only [put_int, hn, if_false, four_digits]
  by_cases h : n.toNat < 10
  · rw [decimal_lt_10 _ h]
    have e1 : n.toNat / 1000 = 0 := by omega
    have e2 : n.toNat / 100 % 10 = 0 := by omega
    have e3 : n.toNat / 10 % 10 = 0 := by omega
    have h' : n.toNat % 10 = n.toNat := by omega
    simp [List.leftpad, e1, e2, e3, h', digit_char, List.replicate]
  · by_cases h' : n.toNat < 100
    · rw [decimal_lt_100 _ (by omega) h']
      have e1 : n.toNat / 1000 = 0 := by omega
      have e2 : n.toNat / 100 % 10 = 0 := by omega
      have e3 : n.toNat / 10 % 10 = n.toNat / 10 := by omega
      simp [List.leftpad, e1, e2, e3, digit_char, List.replicate]
    · by_cases h'' : n.toNat < 1000
      · rw [decimal_lt_1000 _ (by omega) h'']
        have e1 : n.toNat / 1000 = 0 := by omega
        have e2 : n.toNat / 100 % 10 = n.toNat / 100 := by omega
        simp [List.leftpad, e1, e2, digit_char, List.replicate]
      · rw [decimal_lt_10000 _ (by omega) (by omega)]
        simp [List.leftpad]

/-! ## The time point pattern -/

theorem is_digit_bounds (c : Char) (h : is_digit c = true) : 48 ≤ (c.toNat : Int) ∧ (c.toNat : Int) ≤ 57 := by
  simp only [is_digit, decide_eq_true_eq] at h
  omega

theorem stoi_two (a b : Char) (ha : is_digit a = true) (hb : is_digit b = true) :
    0 ≤ stoi [a, b] ∧ stoi [a, b] ≤ 99 := by
  have h1 := is_digit_bounds a ha
  have h2 := is_digit_bounds b hb
  simp only [stoi, List.foldl]
  omega

theorem match_timepoint_shape (tp : Str) (h m s : Str) (hm : match_timepoint tp = some (h, m, s)) :
    (∃ a b, is_digit a = true ∧ is_digit b = true ∧ h = [a, b]) ∧
    (m = [] ∨ ∃ a b, is_digit a = true ∧ is_digit b = true ∧ m = [a, b]) ∧
    (s = [] ∨ ∃ a b, is_digit a = true ∧ is_digit b = true ∧ s = [a, b]) ∧
    (tp.length < 5 → m = []) ∧ (tp.length < 8 → s = []) := by
  unfold match_timepoint at hm
  split at hm
  · split at hm
    · rename_i hc
      simp only [Bool.and_eq_true] at hc
      simp only [Option.some.injEq, Prod.mk.injEq] at hm
      obtain ⟨rfl, rfl, rfl⟩ := hm
      exact ⟨⟨_, _, hc.1, hc.2, rfl⟩, Or.inl rfl, Or.inl rfl, fun _ => rfl, fun _ => rfl⟩
    · cases hm
  · split at hm
    · rename_i hc
      simp only [Bool.and_eq_true] at hc
      simp only [Option.some.injEq, Prod.mk.injEq] at hm
      obtain ⟨rfl, rfl, rfl⟩ := hm
      exact ⟨⟨_, _, hc.1.1.1.1, hc.1.1.1.2, rfl⟩, Or.inr ⟨_, _, hc.1.2, hc.2, rfl⟩, Or.inl rfl,
        fun hl => by simp at hl, fun _ => rfl⟩
    · cases hm
  · split at hm
    · rename_i hc
      simp only [Bool.and_eq_true] at hc
      simp only [Option.some.injEq, Prod.mk.injEq] at hm
      obtain ⟨rfl, rfl, rfl⟩ := hm
      exact ⟨⟨_, _, hc.1.1.1.1.1.1.1, hc.1.1.1.1.1.1.2, rfl⟩,
        Or.inr ⟨_, _, hc.1.1.1.1.2, hc.1.1.1.2, rfl⟩, Or.inr ⟨_, _, hc.1.2, hc.2, rfl⟩,
        fun hl => by simp at hl, fun hl => by simp at hl⟩
    · cases hm
  · cases hm

theorem timestamp_text_eq_stamp (t : tm)
    (hy : 0 ≤ t.tm_year + 1900 ∧ t.tm_year + 1900 ≤ 9999)
    (hmon : 0 ≤ t.tm_mon ∧ t.tm_mon ≤ 11) (hday : 1 ≤ t.tm_mday ∧ t.tm_mday ≤ 31)
    (hh : 0 ≤ t.tm_hour ∧ t.tm_hour ≤ 23) (hmi : 0 ≤ t.tm_min ∧ t.tm_min ≤ 59)
    (hs : 0 ≤ t.tm_sec ∧ t.tm_sec ≤ 60) :
    timestamp_text t = stamp t := by
  unfold timestamp_text stamp
  rw [put_int_four _ hy.1 hy.2, put_int_two _ (by omega) (by omega),
    put_int_two _ (by omega) (by omega), put_int_two _ (by omega) (by omega),
    put_int_two _ (by omega) (by omega), put_int_two _ (by omega) (by omega)]
  rfl

theorem stamp_length (t : tm) : (stamp t).length = 19 := by
  simp [stamp, four_digits, two_digits]

/-- C5. File name derivation: for a broken-down local time with a year in
0..9999, the name derived from a pattern that contains the placeholder is the
pattern with its first occurrence of the placeholder (and nothing else) replaced
by the 19-character zero-padded text YYYY-MM-DD_HH-MM-SS; from a pattern
without the placeholder no name is derived, and `new_output_file_stream` throws
before it changes the output path, the stream or the file system. -/
theorem derive_file_name_first_occurrence (pattern : Str) (t : tm)
    (hy : 0 ≤ t.tm_year + 1900 ∧ t.tm_year + 1900 ≤ 9999)
    (hmon : 0 ≤ t.tm_mon ∧ t.tm_mon ≤ 11) (hday : 1 ≤ t.tm_mday ∧ t.tm_mday ≤ 31)
    (hh : 0 ≤ t.tm_hour ∧ t.tm_hour ≤ 23) (hmi : 0 ≤ t.tm_min ∧ t.tm_min ≤ 59)
    (hs : 0 ≤ t.tm_sec ∧ t.tm_sec ≤ 60) :
    (stamp t).length = 19 ∧
    (∀ pre post, pattern = pre ++ placeholder ++ post →
      (∀ pre2 post2, pattern = pre2 ++ placeholder ++ post2 → pre.length ≤ pre2.length) →
      derive_file_name pattern t = some (pre ++ stamp t ++ post)) ∧
    ((∀ pre post, pattern ≠ pre ++ placeholder ++ post) →
      derive_file_name pattern t = none) ∧
    (∀ (env : Env) (s : State), s.output_file_name_pattern = pattern →
      localtime_r env.zone (to_time_t (env.clock s.reads)) = t →
      (∀ name, derive_file_name pattern t = some name →
        (new_output_file_stream env s).state.output_file_path
          = s.output_directory_name ++ ['/'] ++ name) ∧
      (derive_file_name pattern t = none →
        new_output_file_stream env s
          = .thrown .missing_placeholder { s with reads := s.reads + 1 })) := by
  refine ⟨stamp_length t, ?_, ?_, ?_⟩
  · intro pre post hpat hmin
    unfold derive_file_name
    rw [timestamp_text_eq_stamp t hy hmon hday hh hmi hs]
    cases hf : find placeholder pattern with
    | none => exact absurd hpat (find_eq_none _ _ hf pre post)
    | some p =>
      obtain ⟨pre0, post0, h0, hl0, hmin0⟩ := find_eq_some _ _ _ hf
      have h1 : p ≤ pre.length := hmin0 pre post hpat
      have h2 : pre.length ≤ pre0.length := hmin pre0 post0 h0
      have hp : p = pre.length := by omega
      subst hp
      have h4 : (4 : Nat) = placeholder.length := rfl
      simp only [hpat]
      rw [h4, replace_at]
  · intro hno
    unfold derive_file_name
    cases hf : find placeholder pattern with
    | none => rfl
    | some p =>
      obtain ⟨pre0, post0, h0, _, _⟩ := find_eq_some _ _ _ hf
      exact absurd h0 (hno pre0 post0)
  · intro env s hpat htm
    constructor
    · intro name hname
      simp only [new_output_file_stream, hpat, htm, hname]
      split <;> split <;> rfl
    · intro hnone
      simp only [new_output_file_stream, hpat, htm, hnone]

/-- Scenario C: pattern `%TS%.td` at 2024-01-02 03:04:05 gives
`2024-01-02_03-04-05.td`. -/
theorem derive_file_name_scenario_C :
    derive_file_name "%TS%.td".toList tm_2024_01_02 = some "2024-01-02_03-04-05.td".toList :=
  (derive_file_name_first_occurrence "%TS%.td".toList tm_2024_01_02 (by decide) (by decide)
    (by decide) (by decide) (by decide) (by decide)).2.1 [] ".td".toList rfl
    (fun _ _ _ => Nat.zero_le _)

/-- C10, as the code has it: a time point that `rotate_at` accepts stores
fields in 0..99 (two decimal digits each, no further range check), and every
omitted field is stored as 0. -/
theorem rotate_at_stored_fields (env : Env) (timepoint : Str) (s s2 : State)
    (h : rotate_at env timepoint s = .ok s2) :
    (0 ≤ s2.hour_rotate ∧ s2.hour_rotate ≤ 99) ∧
    (0 ≤ s2.min_rotate ∧ s2.min_rotate ≤ 99) ∧
    (0 ≤ s2.sec_rotate ∧ s2.sec_rotate ≤ 99) ∧
    (timepoint.length < 5 → s2.min_rotate = 0) ∧
    (timepoint.length < 8 → s2.sec_rotate = 0) := by
  unfold rotate_at at h
  split at h
  · cases h
  · rename_i hh mm ss hm
    obtain ⟨⟨a, b, ha, hb, rfl⟩, hmm, hss, hlm, hls⟩ := match_timepoint_shape _ _ _ _ hm
    simp only [Res.ok.injEq] at h
    subst h
    simp only [calc_next_rotation]
    refine ⟨stoi_two a b ha hb, ?_, ?_, ?_, ?_⟩
    · rcases hmm with rfl | ⟨c, d, hc, hd, rfl⟩
      · simp
      · simpa using stoi_two c d hc hd
    · rcases hss with rfl | ⟨c, d, hc, hd, rfl⟩
      · simp
      · simpa using stoi_two c d hc hd
    · intro hl
      simp [hlm hl]
    · intro hl
      simp [hls hl]

/-- C10 witness: `10:30` is accepted and stores 10, 30 and 0. -/
theorem rotate_at_stored_fields_witness :
    (0 ≤ (rotate_at ⟨utc, fun _ => 0⟩ "10:30".toList (initial_state empty_fs)).state.hour_rotate ∧
      (rotate_at ⟨utc, fun _ => 0⟩ "10:30".toList (initial_state empty_fs)).state.hour_rotate ≤ 99) ∧
    (rotate_at ⟨utc, fun _ => 0⟩ "10:30".toList (initial_state empty_fs)).state.sec_rotate = 0 :=
  have h := rotate_at_stored_fields ⟨utc, fun _ => 0⟩ "10:30".toList (initial_state empty_fs)
    (rotate_at ⟨utc, fun _ => 0⟩ "10:30".toList (initial_state empty_fs)).state rfl
  ⟨h.1, h.2.2.2.2 (by decide)⟩

/-- C10 as stated fails: `24:60:61` is accepted and stores hour 24, minute 60
and second 61, outside 0..23, 0..59 and 0..59. -/
theorem rotate_at_accepts_out_of_range :
    (rotate_at ⟨utc, fun _ => 0⟩ "24:60:61".toList (initial_state empty_fs)).err = none ∧
    (rotate_at ⟨utc, fun _ => 0⟩ "24:60:61".toList (initial_state empty_fs)).state.hour_rotate = 24 ∧
    (rotate_at ⟨utc, fun _ => 0⟩ "24:60:61".toList (initial_state empty_fs)).state.min_rotate = 60 ∧
    (rotate_at ⟨utc, fun _ => 0⟩ "24:60:61".toList (initial_state empty_fs)).state.sec_rotate = 61 := by
  decide

/-! ## Calendar lemmas -/

/-- Day of the 400-year era and year of the era stay in range, and the day
of the year is within 0..365. -/
theorem doy_bounds (doe : Int) (h0 : 0 ≤ doe) (h1 : doe ≤ 146096) (yoe : Int)
    (hy : yoe = (doe - doe / 1460 + doe / 36524 - doe / 146096) / 365) :
    0 ≤ yoe ∧ yoe ≤ 399 ∧
    0 ≤ doe - (365 * yoe + yoe / 4 - yoe / 100) ∧
    doe - (365 * yoe + yoe / 4 - yoe / 100) ≤ 365 := by
  have hd : doe / 36524 = 0 ∨ doe / 36524 = 1 ∨ doe / 36524 = 2 ∨ doe / 36524 = 3
      ∨ doe / 36524 = 4 := by omega
  have hg : yoe / 100 = 0 ∨ yoe / 100 = 1 ∨ yoe / 100 = 2 ∨ yoe / 100 = 3 := by omega
  rcases hd with hd | hd | hd | hd | hd <;> rcases hg with hg | hg | hg | hg <;> omega

theorem days_from_civil_of_parts (era yoe doy mp : Int) (hy0 : 0 ≤ yoe) (hy1 : yoe ≤ 399)
    (hm0 : 0 ≤ mp) (hm1 : mp ≤ 11) :
    days_from_civil
      (if (if mp < 10 then mp + 3 else mp - 9) ≤ 2 then yoe + era * 400 + 1 else yoe + era * 400)
      (if mp < 10 then mp + 3 else mp - 9) (doy - (153 * mp + 2) / 5 + 1)
      = era * 146097 + (yoe * 365 + yoe / 4 - yoe / 100 + doy) - 719468 := by
  unfold days_from_civil
  by_cases h : mp < 10
  · have h2 : ¬ mp + 3 ≤ 2 := by omega
    have h3 : mp + 3 > 2 := by omega
    have e1 : (yoe + era * 400) / 400 = era := by omega
    simp only [h, if_true, h2, if_false, h3, e1]
    have e2 : mp + 3 - 3 = mp := by omega
    rw [e2]
    omega
  · have h2 : mp - 9 ≤ 2 := by omega
    have h3 : ¬ mp - 9 > 2 := by omega
    have e0 : yoe + era * 400 + 1 - 1 = yoe + era * 400 := by omega
    have e1 : (yoe + era * 400) / 400 = era := by omega
    simp only [h, if_false, h2, if_true, h3, e0, e1]
    have e2 : mp - 9 + 9 = mp := by omega
    rw [e2]
    omega

theorem days_from_civil_civil_from_days (z : Int) :
    days_from_civil (civil_from_days z).1 (civil_from_days z).2.1 (civil_from_days z).2.2 = z := by
  have hb := doy_bounds ((z + 719468) - (z + 719468) / 146097 * 146097) (by omega) (by omega) _ rfl
  obtain ⟨hy0, hy1, hd0, hd1⟩ := hb
  simp only [civil_from_days]
  rw [days_from_civil_of_parts _ _ _ _ hy0 hy1 (by omega) (by omega)]
  omega

theorem civil_from_days_ranges (z : Int) :
    1 ≤ (civil_from_days z).2.1 ∧ (civil_from_days z).2.1 ≤ 12 ∧
    1 ≤ (civil_from_days z).2.2 ∧ (civil_from_days z).2.2 ≤ 31 := by
  have hb := doy_bounds ((z + 719468) - (z + 719468) / 146097 * 146097) (by omega) (by omega) _ rfl
  obtain ⟨hy0, hy1, hd0, hd1⟩ := hb
  simp only [civil_from_days]
  generalize (z + 719468) - (z + 719468) / 146097 * 146097 = doe at *
  generalize (doe - doe / 1460 + doe / 36524 - doe / 146096) / 365 = yoe at *
  generalize doe - (365 * yoe + yoe / 4 - yoe / 100) = doy at *
  split_ifs <;> omega

theorem wrap_int64_of_fits (x : Int) (h0 : int64_min ≤ x) (h1 : x ≤ int64_max) :
    wrap_int64 x = x := by
  unfold wrap_int64
  unfold int64_min at h0
  unfold int64_max at h1
  omega

theorem to_time_t_mul (t : Int) : to_time_t (t * 1000000000) = t := by
  unfold to_time_t
  exact Int.mul_tdiv_cancel t (by decide)

/-- Truncation to seconds moves an instant by less than one second. -/
theorem to_time_t_near (now : Int) :
    to_time_t now * 1000000000 - 1000000000 < now ∧
      now < to_time_t now * 1000000000 + 1000000000 := by
  unfold to_time_t
  rcases le_or_lt 0 now with h | h
  · rw [Int.tdiv_eq_ediv h (by decide)]
    omega
  · have h2 : now = -(-now) := by omega
    rw [h2, Int.neg_tdiv, Int.tdiv_eq_ediv (by omega) (by decide)]
    omega

theorem to_time_t_of_nonneg (now : Int) (h : 0 ≤ now) : to_time_t now = now / 1000000000 := by
  unfold to_time_t
  exact Int.tdiv_eq_ediv h (by decide)

theorem to_time_t_of_neg (now : Int) (h : now < 0) :
    to_time_t now = -((-now) / 1000000000) := by
  unfold to_time_t
  have h2 : now = -(-now) := by omega
  rw [h2, Int.neg_tdiv, Int.tdiv_eq_ediv (by omega) (by decide)]
  simp

/-- Truncation to seconds keeps the order of instants. -/
theorem to_time_t_mono (a b : Int) (h : a ≤ b) : to_time_t a ≤ to_time_t b := by
  rcases le_or_lt 0 a with ha | ha
  · rw [to_time_t_of_nonneg a ha, to_time_t_of_nonneg b (by omega)]
    omega
  · rcases le_or_lt 0 b with hb | hb
    · rw [to_time_t_of_neg a ha, to_time_t_of_nonneg b hb]
      omega
    · rw [to_time_t_of_neg a ha, to_time_t_of_neg b hb]
      omega

/-- The broken-down time handed to `mktime` spells the rotation time on the
local day of `now`. -/
theorem local_seconds_tm_rotate (z : Zone) (h m s tt : Int) :
    local_seconds (tm_rotate (localtime_r z tt) h m s)
      = local_day z tt * 86400 + h * 3600 + m * 60 + s := by
  simp only [local_seconds, tm_rotate, localtime_r, local_day, sub_add_cancel]
  rw [days_from_civil_civil_from_days]

theorem rotate_instant_eq (z : Zone) (h m s tt : Int) :
    rotate_instant z h m s tt
      = if later h m s (localtime_r z tt)
        then from_time_t (z.mktime (tm_rotate (localtime_r z tt) h m s))
        else wrap_int64 (from_time_t (z.mktime (tm_rotate (localtime_r z tt) h m s)) + days_t_1) := by
  unfold rotate_instant
  by_cases hl : later h m s (localtime_r z tt)
  · have hc : (decide (h > (localtime_r z tt).tm_hour)
        || (decide (h = (localtime_r z tt).tm_hour) && decide (m > (localtime_r z tt).tm_min))
        || (decide (h = (localtime_r z tt).tm_hour) && decide (m = (localtime_r z tt).tm_min)
              && decide (s > (localtime_r z tt).tm_sec))) = true := by
      simpa [later, or_assoc, and_assoc] using hl
    simp [hc, hl]
  · have hc : (decide (h > (localtime_r z tt).tm_hour)
        || (decide (h = (localtime_r z tt).tm_hour) && decide (m > (localtime_r z tt).tm_min))
        || (decide (h = (localtime_r z tt).tm_hour) && decide (m = (localtime_r z tt).tm_min)
              && decide (s > (localtime_r z tt).tm_sec))) = false := by
      rw [Bool.eq_false_iff]
      intro hc
      apply hl
      simpa [later, or_assoc, and_assoc] using hc
    simp only [hc, hl, if_false, Bool.not_false, if_true]

/-- Time of day of `localtime_r`: the fields and the second of the day. -/
theorem localtime_r_time_of_day (z : Zone) (tt : Int) :
    0 ≤ (localtime_r z tt).tm_hour ∧ (localtime_r z tt).tm_hour ≤ 23 ∧
    0 ≤ (localtime_r z tt).tm_min ∧ (localtime_r z tt).tm_min ≤ 59 ∧
    0 ≤ (localtime_r z tt).tm_sec ∧ (localtime_r z tt).tm_sec ≤ 59 ∧
    tt + z.gmtoff tt = local_day z tt * 86400 + (localtime_r z tt).tm_hour * 3600
      + (localtime_r z tt).tm_min * 60 + (localtime_r z tt).tm_sec := by
  simp only [localtime_r, local_day]
  omega

/-- When the instant to be stored fits the 64-bit nanosecond count it is
stored as it is: the whole second that `mktime` returned, plus a day unless
the rotation time is later than the time of day of `now`. -/
theorem rotate_instant_of_fits (z : Zone) (h m s tt : Int)
    (hfit : int64_min ≤ (z.mktime (tm_rotate (localtime_r z tt) h m s)
          + if later h m s (localtime_r z tt) then 0 else 86400) * 1000000000 ∧
      (z.mktime (tm_rotate (localtime_r z tt) h m s)
          + if later h m s (localtime_r z tt) then 0 else 86400) * 1000000000 ≤ int64_max) :
    rotate_instant z h m s tt
      = (z.mktime (tm_rotate (localtime_r z tt) h m s)
          + if later h m s (localtime_r z tt) then 0 else 86400) * 1000000000 := by
  rw [rotate_instant_eq]
  generalize z.mktime (tm_rotate (localtime_r z tt) h m s) = r at hfit ⊢
  have hd : days_t_1 = 86400000000000 := by decide
  rw [hd]
  unfold from_time_t wrap_int64
  unfold int64_min int64_max at hfit
  split_ifs at hfit ⊢ <;> omega

/-- On a host where `mktime` reads the rotation time with the offset from UTC
in force at `now`, and for a `now` whose whole second plus one day fits the
64-bit nanosecond count, the scheduled instant is after `now`. -/
theorem rotate_instant_after (z : Zone) (h m s now : Int)
    (hh : 0 ≤ h ∧ h ≤ 23) (hm : 0 ≤ m ∧ m ≤ 59) (hs : 0 ≤ s ∧ s ≤ 59)
    (hres : z.mktime (tm_rotate (localtime_r z (to_time_t now)) h m s)
      = local_seconds (tm_rotate (localtime_r z (to_time_t now)) h m s)
          - z.gmtoff (to_time_t now))
    (hfit : int64_min ≤ now ∧ to_time_t now * 1000000000 + days_t_1 ≤ int64_max) :
    now < rotate_instant z h m s (to_time_t now) := by
  have hnear := to_time_t_near now
  have ht := localtime_r_time_of_day z (to_time_t now)
  have hd : days_t_1 = 86400000000000 := by decide
  have hmin : int64_min = -9223372036854775808 := rfl
  have hmax : int64_max = 9223372036854775807 := rfl
  rw [local_seconds_tm_rotate] at hres
  rw [hd, hmin, hmax] at hfit
  by_cases hl : later h m s (localtime_r z (to_time_t now))
  · have hl2 := hl
    unfold later at hl2
    rw [rotate_instant_of_fits z h m s (to_time_t now)
      (by rw [hmin, hmax]; simp only [hl, if_true]; omega)]
    simp only [hl, if_true]
    omega
  · have hl2 := hl
    unfold later at hl2
    rw [rotate_instant_of_fits z h m s (to_time_t now)
      (by rw [hmin, hmax]; simp only [hl, if_false]; omega)]
    simp only [hl, if_false]
    omega


/-! ## What each function leaves unchanged -/

/-- `close_output_file_stream` changes only the stream, the file system and
the history, whether or not it throws. -/
theorem close_output_file_stream_frame (s : State) :
    (close_output_file_stream s).state.hour_rotate = s.hour_rotate ∧
    (close_output_file_stream s).state.min_rotate = s.min_rotate ∧
    (close_output_file_stream s).state.sec_rotate = s.sec_rotate ∧
    (close_output_file_stream s).state.reads = s.reads ∧
    (close_output_file_stream s).state.next_rotation = s.next_rotation ∧
    (close_output_file_stream s).state.output_directory_name = s.output_directory_name ∧
    (close_output_file_stream s).state.output_file_name_pattern = s.output_file_name_pattern ∧
    (close_output_file_stream s).state.output_file_path = s.output_file_path ∧
    (close_output_file_stream s).state.output_file_stream.path = none := by
  unfold close_output_file_stream
  cases hopen : s.output_file_stream.path with
  | none => simp [ofstream.is_open, hopen, Res.state]
  | some p =>
    simp only [ofstream.is_open, hopen, Option.isSome_some, Bool.not_true, Bool.false_eq_true,
      if_false]
    cases hsrc : s.fs.file (s.output_file_path ++ part) with
    | none => simp [Res.state]
    | some content =>
      by_cases hren : s.fs.can_rename (s.output_file_path ++ part) s.output_file_path = true
      · simp [hren, Res.state]
      · simp [hren, Res.state]

/-! ## Scheduling -/

theorem date_of_localtime_r (z : Zone) (tt : Int) :
    date_of (localtime_r z tt) = civil_from_days (local_day z tt) := by
  simp [date_of, localtime_r, local_day]

/-- C2, as the code has it: on a host where `mktime` reads the rotation time
on the date of `now` with the offset from UTC that is in force at `now`, and
for a `now` of the 64-bit clock whose whole second plus one day still fits
the 64-bit nanosecond count, the instant that `calc_next_rotation` stores is
strictly greater than the instant `now` it read, for every sub-second part of
`now`, so the due test with that `now` is false; and after the rotation
sequence of a loop iteration the instant that triggered it is not due
again. -/
theorem calc_next_rotation_strictly_forward (env : Env) (s : State)
    (hh : 0 ≤ s.hour_rotate ∧ s.hour_rotate ≤ 23)
    (hm : 0 ≤ s.min_rotate ∧ s.min_rotate ≤ 59)
    (hs : 0 ≤ s.sec_rotate ∧ s.sec_rotate ≤ 59)
    (hres : env.zone.mktime (tm_rotate (localtime_r env.zone (to_time_t (env.clock s.reads)))
        s.hour_rotate s.min_rotate s.sec_rotate)
      = local_seconds (tm_rotate (localtime_r env.zone (to_time_t (env.clock s.reads)))
          s.hour_rotate s.min_rotate s.sec_rotate)
        - env.zone.gmtoff (to_time_t (env.clock s.reads)))
    (hfit : int64_min ≤ env.clock s.reads ∧
      to_time_t (env.clock s.reads) * 1000000000 + days_t_1 ≤ int64_max) :
    env.clock s.reads < (calc_next_rotation env s).next_rotation ∧
    ¬ (env.clock s.reads > (calc_next_rotation env s).next_rotation) ∧
    (∀ now s1, now ≤ env.clock s.reads → close_output_file_stream s = .ok s1 →
      ¬ (now > (rotation env s).state.next_rotation)) := by
  have key : ∀ s1 : State, s1.hour_rotate = s.hour_rotate → s1.min_rotate = s.min_rotate →
      s1.sec_rotate = s.sec_rotate → s1.reads = s.reads →
      env.clock s.reads < (calc_next_rotation env s1).next_rotation := by
    intro s1 e1 e2 e3 e4
    simp only [calc_next_rotation, e1, e2, e3, e4]
    exact rotate_instant_after env.zone s.hour_rotate s.min_rotate s.sec_rotate
      (env.clock s.reads) hh hm hs hres hfit
  refine ⟨key s rfl rfl rfl rfl, ?_, ?_⟩
  · have := key s rfl rfl rfl rfl
    omega
  · intro now s1 hnow hclose
    have hfields : s1.hour_rotate = s.hour_rotate ∧ s1.min_rotate = s.min_rotate ∧
        s1.sec_rotate = s.sec_rotate ∧ s1.reads = s.reads := by
      have hf := close_output_file_stream_frame s
      rw [hclose] at hf
      exact ⟨hf.1, hf.2.1, hf.2.2.1, hf.2.2.2.1⟩
    have hk := key s1 hfields.1 hfields.2.1 hfields.2.2.1 hfields.2.2.2
    have hnext : (rotation env s).state.next_rotation = (calc_next_rotation env s1).next_rotation := by
      simp only [rotation, hclose, Res.andThen, new_output_file_stream]
      split
      · rfl
      · split <;> split <;> rfl
    rw [hnext]
    omega

/-- C2 witness: rotation time 10:00:00 read at 10:00:00.5 UTC on 2024-01-02. -/
theorem calc_next_rotation_strictly_forward_witness :
    clock_at 1704189600500000000 0
      < (calc_next_rotation ⟨utc, clock_at 1704189600500000000⟩ state_10_00_00).next_rotation :=
  (calc_next_rotation_strictly_forward ⟨utc, clock_at 1704189600500000000⟩ state_10_00_00
    (by decide) (by decide) (by decide) (by decide) (by decide)).1

/-- C2 as stated fails on a host whose offset from UTC changes within the
local day, and at the end of the 64-bit clock. On a Volgograd host with the
default rotation time 00:00:00, read at 23:30:00 local time on 2020-12-27 (the
day local time went from UTC+4 to UTC+3), `mktime` returns midnight of that
day at UTC+4 and a day later is 23:00:00 local time of the same day: the
stored instant is 1800 seconds before `now`, and the due test with that `now`
is true again. On a UTC host with the same rotation time, read at 10:00:00 on
2262-04-11, the day added leaves the 64-bit range and the stored instant is
in the year 1677. -/
theorem calc_next_rotation_not_forward :
    (date_of (localtime_r volgograd_2020 (to_time_t (clock_at 1609101000000000000 0)))
        = (2020, 12, 27) ∧
      (localtime_r volgograd_2020 (to_time_t (clock_at 1609101000000000000 0))).tm_hour = 23 ∧
      (localtime_r volgograd_2020 (to_time_t (clock_at 1609101000000000000 0))).tm_min = 30 ∧
      (calc_next_rotation ⟨volgograd_2020, clock_at 1609101000000000000⟩
        (initial_state empty_fs)).next_rotation = 1609099200000000000 ∧
      clock_at 1609101000000000000 0
        > (calc_next_rotation ⟨volgograd_2020, clock_at 1609101000000000000⟩
            (initial_state empty_fs)).next_rotation) ∧
    (date_of (localtime_r utc (to_time_t (clock_at 9223322400000000000 0))) = (2262, 4, 11) ∧
      (localtime_r utc (to_time_t (clock_at 9223322400000000000 0))).tm_hour = 10 ∧
      clock_at 9223322400000000000 0 ≤ int64_max ∧
      (calc_next_rotation ⟨utc, clock_at 9223322400000000000⟩
        (initial_state empty_fs)).next_rotation = -9223371273709551616 ∧
      clock_at 9223322400000000000 0
        > (calc_next_rotation ⟨utc, clock_at 9223322400000000000⟩
            (initial_state empty_fs)).next_rotation) := by
  decide

/-- C1, as the code has it: when the instant to be stored (the one `mktime`
returns, plus a day unless the rotation time is later than the time of day of
`now`) fits the 64-bit nanosecond count, and the offset from UTC in force at
the stored instant is the offset with which `mktime` read the rotation time on
the date of `now`, the local time of day of the instant that
`calc_next_rotation` stores is hour:minute:second, and its date is the date of
`now` when the rotation time is strictly later than the time of day of `now`,
and the next day otherwise. -/
theorem calc_next_rotation_local_time (env : Env) (s : State)
    (hh : 0 ≤ s.hour_rotate ∧ s.hour_rotate ≤ 23)
    (hm : 0 ≤ s.min_rotate ∧ s.min_rotate ≤ 59)
    (hs : 0 ≤ s.sec_rotate ∧ s.sec_rotate ≤ 59)
    (hfit : int64_min ≤ (env.zone.mktime (tm_rotate
            (localtime_r env.zone (to_time_t (env.clock s.reads)))
            s.hour_rotate s.min_rotate s.sec_rotate)
          + if later s.hour_rotate s.min_rotate s.sec_rotate
              (localtime_r env.zone (to_time_t (env.clock s.reads)))
            then 0 else 86400) * 1000000000 ∧
      (env.zone.mktime (tm_rotate (localtime_r env.zone (to_time_t (env.clock s.reads)))
            s.hour_rotate s.min_rotate s.sec_rotate)
          + if later s.hour_rotate s.min_rotate s.sec_rotate
              (localtime_r env.zone (to_time_t (env.clock s.reads)))
            then 0 else 86400) * 1000000000 ≤ int64_max)
    (hoff : env.zone.gmtoff (to_time_t (calc_next_rotation env s).next_rotation)
      = local_seconds (tm_rotate (localtime_r env.zone (to_time_t (env.clock s.reads)))
          s.hour_rotate s.min_rotate s.sec_rotate)
        - env.zone.mktime (tm_rotate (localtime_r env.zone (to_time_t (env.clock s.reads)))
            s.hour_rotate s.min_rotate s.sec_rotate)) :
    (localtime_r env.zone (to_time_t (calc_next_rotation env s).next_rotation)).tm_hour
      = s.hour_rotate ∧
    (localtime_r env.zone (to_time_t (calc_next_rotation env s).next_rotation)).tm_min
      = s.min_rotate ∧
    (localtime_r env.zone (to_time_t (calc_next_rotation env s).next_rotation)).tm_sec
      = s.sec_rotate ∧
    date_of (localtime_r env.zone (to_time_t (calc_next_rotation env s).next_rotation))
      = if later s.hour_rotate s.min_rotate s.sec_rotate
            (localtime_r env.zone (to_time_t (env.clock s.reads)))
        then date_of (localtime_r env.zone (to_time_t (env.clock s.reads)))
        else next_day (date_of (localtime_r env.zone (to_time_t (env.clock s.reads)))) := by
  simp only [calc_next_rotation] at hoff ⊢
  generalize to_time_t (env.clock s.reads) = tt at hfit hoff ⊢
  have hx : to_time_t (rotate_instant env.zone s.hour_rotate s.min_rotate s.sec_rotate tt)
      = env.zone.mktime (tm_rotate (localtime_r env.zone tt)
          s.hour_rotate s.min_rotate s.sec_rotate)
        + if later s.hour_rotate s.min_rotate s.sec_rotate (localtime_r env.zone tt)
          then 0 else 86400 := by
    rw [rotate_instant_of_fits _ _ _ _ _ hfit, to_time_t_mul]
  rw [local_seconds_tm_rotate] at hoff
  generalize to_time_t (rotate_instant env.zone s.hour_rotate s.min_rotate s.sec_rotate tt) = x
    at hoff hx ⊢
  generalize env.zone.mktime (tm_rotate (localtime_r env.zone tt)
    s.hour_rotate s.min_rotate s.sec_rotate) = r at hoff hx
  have hday : local_day env.zone x = local_day env.zone tt
      + if later s.hour_rotate s.min_rotate s.sec_rotate (localtime_r env.zone tt)
        then 0 else 1 := by
    simp only [local_day] at hoff ⊢
    split_ifs at hx ⊢ <;> omega
  refine ⟨?_, ?_, ?_, ?_⟩
  · simp only [localtime_r, local_day] at hoff ⊢
    split_ifs at hx <;> omega
  · simp only [localtime_r, local_day] at hoff ⊢
    split_ifs at hx <;> omega
  · simp only [localtime_r, local_day] at hoff ⊢
    split_ifs at hx <;> omega
  · rw [date_of_localtime_r, hday, date_of_localtime_r]
    split_ifs
    · simp
    · simp only [next_day]
      rw [days_from_civil_civil_from_days]

/-- Scenarios A and B: rotation time 10:00:00 on a UTC host on 2024-01-02; read
at 09:00:00 the next rotation is 10:00:00 the same day, read at 10:00:01 it is
10:00:00 on 2024-01-03. -/
theorem calc_next_rotation_scenarios_A_B :
    ((localtime_r utc (to_time_t (calc_next_rotation ⟨utc, clock_at 1704186000000000000⟩
        state_10_00_00).next_rotation)).tm_hour = 10 ∧
      date_of (localtime_r utc (to_time_t (calc_next_rotation
        ⟨utc, clock_at 1704186000000000000⟩ state_10_00_00).next_rotation)) = (2024, 1, 2)) ∧
    ((localtime_r utc (to_time_t (calc_next_rotation ⟨utc, clock_at 1704189601000000000⟩
        state_10_00_00).next_rotation)).tm_hour = 10 ∧
      date_of (localtime_r utc (to_time_t (calc_next_rotation
        ⟨utc, clock_at 1704189601000000000⟩ state_10_00_00).next_rotation)) = (2024, 1, 3)) :=
  have hA := calc_next_rotation_local_time ⟨utc, clock_at 1704186000000000000⟩ state_10_00_00
    (by decide) (by decide) (by decide) (by decide) (by decide)
  have hB := calc_next_rotation_local_time ⟨utc, clock_at 1704189601000000000⟩ state_10_00_00
    (by decide) (by decide) (by decide) (by decide) (by decide)
  ⟨⟨hA.1, hA.2.2.2.trans (by decide)⟩, ⟨hB.1, hB.2.2.2.trans (by decide)⟩⟩

/-- C1 as stated fails when the offset from UTC changes between the instant
`mktime` returns and the stored instant, and at the end of the 64-bit clock.
On a Central European host, rotation time 10:00:00 read at 10:00:01 on
2024-03-30 (the day before clocks go forward) stores an instant 24 hours after
10:00:00 of that day, whose local time is 11:00:00 on 2024-03-31, not
10:00:00. On a UTC host, rotation time 10:00:00 read at 10:00:01 on 2262-04-11
stores an instant whose nanosecond count left the 64-bit range: its local
time is 10:25:27 on 1677-09-21. -/
theorem calc_next_rotation_across_dst :
    (date_of (localtime_r cet_2024 (to_time_t (clock_at 1711789201000000000 0))) = (2024, 3, 30) ∧
      (localtime_r cet_2024 (to_time_t (clock_at 1711789201000000000 0))).tm_hour = 10 ∧
      (localtime_r cet_2024 (to_time_t (clock_at 1711789201000000000 0))).tm_min = 0 ∧
      (localtime_r cet_2024 (to_time_t (clock_at 1711789201000000000 0))).tm_sec = 1 ∧
      (calc_next_rotation ⟨cet_2024, clock_at 1711789201000000000⟩ state_10_00_00).next_rotation
        = 1711875600000000000 ∧
      date_of (localtime_r cet_2024 (to_time_t (calc_next_rotation
        ⟨cet_2024, clock_at 1711789201000000000⟩ state_10_00_00).next_rotation)) = (2024, 3, 31) ∧
      (localtime_r cet_2024 (to_time_t (calc_next_rotation
        ⟨cet_2024, clock_at 1711789201000000000⟩ state_10_00_00).next_rotation)).tm_hour = 11) ∧
    (date_of (localtime_r utc (to_time_t (clock_at 9223322401000000000 0))) = (2262, 4, 11) ∧
      (localtime_r utc (to_time_t (clock_at 9223322401000000000 0))).tm_hour = 10 ∧
      (localtime_r utc (to_time_t (clock_at 9223322401000000000 0))).tm_sec = 1 ∧
      clock_at 9223322401000000000 0 ≤ int64_max ∧
      (calc_next_rotation ⟨utc, clock_at 9223322401000000000⟩ state_10_00_00).next_rotation
        = -9223335273709551616 ∧
      date_of (localtime_r utc (to_time_t (calc_next_rotation
        ⟨utc, clock_at 9223322401000000000⟩ state_10_00_00).next_rotation)) = (1677, 9, 21) ∧
      (localtime_r utc (to_time_t (calc_next_rotation
        ⟨utc, clock_at 9223322401000000000⟩ state_10_00_00).next_rotation)).tm_min = 25) := by
  decide

/-! ## Open, close and write -/

theorem append_part_ne (p : Str) : p ++ part ≠ p := by
  intro h
  have := congrArg List.length h
  simp [part] at this

/-- What a successful `new_output_file_stream` has done. -/
theorem new_output_file_stream_ok (env : Env) (s s1 : State)
    (h : new_output_file_stream env s = .ok s1) :
    (∃ name, derive_file_name s.output_file_name_pattern
        (localtime_r env.zone (to_time_t (env.clock s.reads))) = some name ∧
      s1.output_file_path = s.output_directory_name ++ "/".toList ++ name) ∧
    s.fs.can_open (s1.output_file_path ++ part) = true ∧
    s1.fs = s.fs.open_app (s1.output_file_path ++ part) ∧
    s1.output_file_stream
      = { path := some (s1.output_file_path ++ part), good := true, bad := false } ∧
    s1.history = s.history
      ++ [Event.opened (env.clock s.reads) s.next_rotation s1.output_file_path] ∧
    s1.reads = s.reads + 1 ∧ s1.next_rotation = s.next_rotation ∧
    s1.hour_rotate = s.hour_rotate ∧ s1.min_rotate = s.min_rotate ∧
    s1.sec_rotate = s.sec_rotate ∧
    s1.output_directory_name = s.output_directory_name ∧
    s1.output_file_name_pattern = s.output_file_name_pattern := by
  unfold new_output_file_stream at h
  cases hname : derive_file_name s.output_file_name_pattern
      (localtime_r env.zone (to_time_t (env.clock s.reads))) with
  | none => simp [hname] at h
  | some name =>
    simp only [hname] at h
    split_ifs at h
    all_goals
      simp only [Res.ok.injEq] at h
      subst h
      exact ⟨⟨name, rfl, rfl⟩, by assumption, rfl, rfl, rfl, rfl, rfl, rfl, rfl, rfl, rfl, rfl⟩

/-- What a successful `close_output_file_stream` has done on an open stream. -/
theorem close_output_file_stream_ok (s s2 : State) (p : Str)
    (hopen : s.output_file_stream.path = some p)
    (h : close_output_file_stream s = .ok s2) :
    ∃ content, s.fs.file (s.output_file_path ++ part) = some content ∧
      s.fs.can_rename (s.output_file_path ++ part) s.output_file_path = true ∧
      s2.fs = s.fs.rename (s.output_file_path ++ part) s.output_file_path ∧
      s2.history = s.history ++ [Event.published s.output_file_path content] := by
  unfold close_output_file_stream at h
  simp only [ofstream.is_open, hopen, Option.isSome_some, Bool.not_true, Bool.false_eq_true,
    if_false] at h
  cases hsrc : s.fs.file (s.output_file_path ++ part) with
  | none => simp [hsrc] at h
  | some content =>
    simp only [hsrc] at h
    by_cases hren : s.fs.can_rename (s.output_file_path ++ part) s.output_file_path = true
    · simp only [hren, if_true, Res.ok.injEq] at h
      subst h
      exact ⟨content, rfl, hren, rfl, rfl⟩
    · simp [hren] at h

/-- C4. Publish round trip: after a successful `new_output_file_stream`
followed by a successful `close_output_file_stream`, a file exists at the final
path (holding what the sink held), no file exists at the final path plus
`.part`, and the stream is closed. -/
theorem open_then_close_publishes (env : Env) (s s1 s2 : State)
    (hopen : new_output_file_stream env s = .ok s1)
    (hclose : close_output_file_stream s1 = .ok s2) :
    s2.fs.file s1.output_file_path
      = some ((s.fs.file (s1.output_file_path ++ part)).getD []) ∧
    s2.fs.file (s1.output_file_path ++ part) = none ∧
    s2.output_file_stream.is_open = false ∧
    s2.output_file_path = s1.output_file_path := by
  obtain ⟨_, _, hfs, hstream, _⟩ := new_output_file_stream_ok env s s1 hopen
  have hp : s1.output_file_stream.path = some (s1.output_file_path ++ part) := by
    rw [hstream]
  obtain ⟨content, hsrc, _, hfs2, _⟩ := close_output_file_stream_ok s1 s2 _ hp hclose
  have hframe := close_output_file_stream_frame s1
  rw [hclose] at hframe
  simp only [Res.state] at hframe
  refine ⟨?_, ?_, ?_, hframe.2.2.2.2.2.2.2.1⟩
  · rw [hfs2, hfs]
    simp [FileSystem.rename, FileSystem.open_app]
  · rw [hfs2]
    have hne : part ≠ [] := by decide
    simp [FileSystem.rename, hne]
  · simp [ofstream.is_open, hframe.2.2.2.2.2.2.2.2]

/-- C4 witness: start-up on an empty directory at 2024-01-02 03:04:05 UTC,
then close and publish. -/
theorem open_then_close_publishes_witness :
    (close_output_file_stream (startup env_reopen (initial_state empty_fs)).state).state.fs.file
        "./dump/2024-01-02_03-04-05.td".toList = some [] ∧
    (close_output_file_stream (startup env_reopen (initial_state empty_fs)).state).state.fs.file
        "./dump/2024-01-02_03-04-05.td.part".toList = none :=
  have h := open_then_close_publishes env_reopen
    (calc_next_rotation env_reopen (initial_state empty_fs))
    (startup env_reopen (initial_state empty_fs)).state
    (close_output_file_stream (startup env_reopen (initial_state empty_fs)).state).state rfl rfl
  ⟨h.1, h.2.1⟩

/-- C8, as the code has it: `new_output_file_stream` called while an output
is open only closes the stream, it does not publish. After a successful call
the previous sink `P.part` still exists with its content, every path other
than the new sink is as before (so nothing was created at `P`), no publish is
recorded, and the stream is open on the new final path plus `.part`. -/
theorem open_while_open_does_not_publish (env : Env) (s s1 : State) (P content : Str)
    (_hopen : s.output_file_stream.path = some (P ++ part))
    (hsink : s.fs.file (P ++ part) = some content)
    (hok : new_output_file_stream env s = .ok s1) :
    s1.fs.file (P ++ part) = some content ∧
    (∀ q, q ≠ s1.output_file_path ++ part → s1.fs.file q = s.fs.file q) ∧
    (P ≠ s1.output_file_path ++ part → s1.fs.file P = s.fs.file P) ∧
    s1.output_file_stream.path = some (s1.output_file_path ++ part) ∧
    s1.history = s.history
      ++ [Event.opened (env.clock s.reads) s.next_rotation s1.output_file_path] := by
  obtain ⟨_, _, hfs, hst, hhist, _⟩ := new_output_file_stream_ok env s s1 hok
  have hframe : ∀ q, q ≠ s1.output_file_path ++ part → s1.fs.file q = s.fs.file q := by
    intro q hq
    rw [hfs]
    simp [FileSystem.open_app, hq]
  refine ⟨?_, hframe, fun hP => hframe P hP, by rw [hst], hhist⟩
  by_cases hq : P ++ part = s1.output_file_path ++ part
  · rw [hfs, ← hq]
    simp [FileSystem.open_app, hsink]
  · rw [hframe _ hq, hsink]

/-- C8 witness: the output opened at 03:04:05 holds the line `a`; opening
again at 03:04:06 leaves `a` in the old sink. -/
theorem open_while_open_does_not_publish_witness :
    (new_output_file_stream env_reopen state_reopen).state.fs.file
      ("./dump/2024-01-02_03-04-05.td".toList ++ part) = some ['a', Char.ofNat 10] :=
  (open_while_open_does_not_publish env_reopen state_reopen
    (new_output_file_stream env_reopen state_reopen).state
    "./dump/2024-01-02_03-04-05.td".toList ['a', Char.ofNat 10] rfl rfl rfl).1

/-- C8 as stated fails: with the output `./dump/2024-01-02_03-04-05.td` open
and holding the line `a`, a call of `new_output_file_stream` at 03:04:06
succeeds, and afterwards no file exists at the previous final path while its
`.part` sink is still there; the new sink is open. -/
theorem open_while_open_leaves_part :
    state_reopen.output_file_stream.path = some "./dump/2024-01-02_03-04-05.td.part".toList ∧
    (new_output_file_stream env_reopen state_reopen).err = none ∧
    (new_output_file_stream env_reopen state_reopen).state.fs.file
      "./dump/2024-01-02_03-04-05.td".toList = none ∧
    (new_output_file_stream env_reopen state_reopen).state.fs.file
      "./dump/2024-01-02_03-04-05.td.part".toList = some ['a', Char.ofNat 10] ∧
    (new_output_file_stream env_reopen state_reopen).state.output_file_stream.path
      = some "./dump/2024-01-02_03-04-06.td.part".toList := by
  decide

/-- C9, as the code has it: a line written while no output is open raises no
error. In a loop iteration that is not due and finds the stream closed, the
body ends normally and the line is dropped: the file system, the history and
every global other than the stream are as before, and the stream is still
closed and is not good. Of the stream only the error state can change: a
stream that was not good, as it is after a failed `open`, is left exactly as it
was. -/
theorem write_while_closed_is_silent (env : Env) (s : State) (input_line : Str)
    (hclosed : s.output_file_stream.path = none)
    (hnot_due : ¬ (env.clock s.reads > s.next_rotation)) :
    (loop_body env s input_line).err = none ∧
    (loop_body env s input_line).state
      = { s with
          reads := s.reads + 1
          output_file_stream := (loop_body env s input_line).state.output_file_stream } ∧
    (loop_body env s input_line).state.fs = s.fs ∧
    (loop_body env s input_line).state.history = s.history ∧
    (loop_body env s input_line).state.output_file_stream.path = none ∧
    (loop_body env s input_line).state.output_file_stream.good = false ∧
    (s.output_file_stream.good = false →
      (loop_body env s input_line).state.output_file_stream = s.output_file_stream) := by
  have h : loop_body env s input_line
      = .ok (write_line { s with reads := s.reads + 1 } input_line) := by
    simp only [loop_body, hnot_due, if_false, Res.andThen]
  have hw : write_line { s with reads := s.reads + 1 } input_line
      = if s.output_file_stream.good
        then { s with
               reads := s.reads + 1
               output_file_stream := { s.output_file_stream with good := false, bad := true } }
        else { s with reads := s.reads + 1 } := by
    simp only [write_line, hclosed]
  rw [h, hw]
  cases hg : s.output_file_stream.good
  · exact ⟨rfl, rfl, rfl, rfl, hclosed, hg, fun _ => rfl⟩
  · exact ⟨rfl, rfl, rfl, rfl, hclosed, rfl, fun h => Bool.noConfusion h⟩

/-- C9 witness: the third line of `env_failed_open`, read after the rotation
whose open failed. -/
theorem write_while_closed_is_silent_witness :
    (loop_body env_failed_open state_failed_open ['3']).err = none ∧
    (loop_body env_failed_open state_failed_open ['3']).state.history
      = state_failed_open.history ∧
    (loop_body env_failed_open state_failed_open ['3']).state.output_file_stream
      = state_failed_open.output_file_stream :=
  have h := write_while_closed_is_silent env_failed_open state_failed_open ['3']
    (by decide) (by decide)
  ⟨h.1, h.2.2.2.1, h.2.2.2.2.2.2 (by decide)⟩

/-- C9 as stated fails: on `env_failed_open` the second line triggers a
rotation whose open fails (that exception reaches the loop) and leaves the
stream closed, not good and not bad; the third line is then written while no
output is open, the loop body ends without any error, the stream is as it
was, and the line is in no file: the only file is the first output with line
`1`. -/
theorem write_while_closed_drops_line :
    (loop_body env_failed_open
      (main_loop env_failed_open
        (startup env_failed_open { initial_state fs_one_sink with hour_rotate := 10 }).state
        [['1']]) ['2']).err = some Err.unable_to_open ∧
    state_failed_open.output_file_stream = { path := none, good := false, bad := false } ∧
    (loop_body env_failed_open state_failed_open ['3']).err = none ∧
    (loop_body env_failed_open state_failed_open ['3']).state.output_file_stream
      = { path := none, good := false, bad := false } ∧
    (loop_body env_failed_open state_failed_open ['3']).state.fs.file
      "./dump/2024-01-02_09-59-59.td".toList = some ['1', Char.ofNat 10] ∧
    (loop_body env_failed_open state_failed_open ['3']).state.fs.file
      "./dump/2024-01-02_10-00-00.td.part".toList = none ∧
    (loop_body env_failed_open state_failed_open ['3']).state.fs.file
      "./dump/2024-01-02_10-00-00.td".toList = none ∧
    (loop_body env_failed_open state_failed_open ['3']).state.history
      = [Event.opened 1704189599000000000 1704189600000000000
          "./dump/2024-01-02_09-59-59.td".toList,
        Event.wrote ['1'],
        Event.published "./dump/2024-01-02_09-59-59.td".toList ['1', Char.ofNat 10]] := by
  decide

/-- C6. The due test is strict. In the body of the loop the rotation sequence
(close and publish, recompute, open) runs when the instant read for the line is
greater than `next_rotation`, and otherwise the line is written at once and
nothing else happens; in particular at `now = next_rotation` the line is
appended to the already open file, and the schedule, the output path and the
stream stay as they are. -/
theorem loop_body_due_test (env : Env) (s : State) (input_line : Str) :
    (env.clock s.reads > s.next_rotation →
      loop_body env s input_line
        = ((close_output_file_stream { s with reads := s.reads + 1 }).andThen fun s1 =>
            new_output_file_stream env (calc_next_rotation env s1)).andThen
            fun s2 => .ok (write_line s2 input_line)) ∧
    (¬ (env.clock s.reads > s.next_rotation) →
      loop_body env s input_line = .ok (write_line { s with reads := s.reads + 1 } input_line) ∧
      (loop_body env s input_line).state.next_rotation = s.next_rotation ∧
      (loop_body env s input_line).state.output_file_path = s.output_file_path ∧
      (loop_body env s input_line).state.output_file_stream.path = s.output_file_stream.path ∧
      (loop_body env s input_line).state.reads = s.reads + 1) ∧
    (env.clock s.reads = s.next_rotation →
      ∀ p content, s.output_file_stream = { path := some p, good := true, bad := false } →
        s.fs.file p = some content →
        (loop_body env s input_line).err = none ∧
        (loop_body env s input_line).state.fs.file p
          = some (content ++ input_line ++ [Char.ofNat 10]) ∧
        (∀ q, q ≠ p → (loop_body env s input_line).state.fs.file q = s.fs.file q) ∧
        (loop_body env s input_line).state.history = s.history ++ [Event.wrote input_line] ∧
        (loop_body env s input_line).state.next_rotation = s.next_rotation ∧
        (loop_body env s input_line).state.output_file_path = s.output_file_path ∧
        (loop_body env s input_line).state.output_file_stream = s.output_file_stream) := by
  refine ⟨?_, ?_, ?_⟩
  · intro hdue
    simp only [loop_body, hdue, if_true, rotation]
  · intro hnot
    have h : loop_body env s input_line
        = .ok (write_line { s with reads := s.reads + 1 } input_line) := by
      simp only [loop_body, hnot, if_false, Res.andThen]
    rw [h]
    refine ⟨rfl, ?_, ?_, ?_, ?_⟩ <;>
      (simp only [Res.state, write_line]; split <;> split <;> rfl)
  · intro htie p content hstream hfile
    have hnot : ¬ (env.clock s.reads > s.next_rotation) := by omega
    have h : loop_body env s input_line
        = .ok (write_line { s with reads := s.reads + 1 } input_line) := by
      simp only [loop_body, hnot, if_false, Res.andThen]
    rw [h]
    refine ⟨rfl, ?_, ?_, ?_, ?_, ?_, ?_⟩
    · simp [Res.state, write_line, hstream, FileSystem.append, hfile]
    · intro q hq
      simp [Res.state, write_line, hstream, FileSystem.append, hq]
    · simp [Res.state, write_line, hstream]
    · simp [Res.state, write_line, hstream]
    · simp [Res.state, write_line, hstream]
    · simp [Res.state, write_line, hstream]

/-- C6 witness: on `env_same_second` the first line is read at exactly
`next_rotation`; it is appended to the open sink and nothing rotates. -/
theorem loop_body_due_test_witness :
    env_same_second.clock state_same_second.reads = state_same_second.next_rotation ∧
    (loop_body env_same_second state_same_second ['1']).state.fs.file
      "./dump/2024-01-02_10-00-00.td.part".toList = some ['1', Char.ofNat 10] ∧
    (loop_body env_same_second state_same_second ['1']).state.next_rotation
      = state_same_second.next_rotation :=
  have h := (loop_body_due_test env_same_second state_same_second ['1']).2.2 (by decide)
    "./dump/2024-01-02_10-00-00.td.part".toList [] rfl rfl
  ⟨by decide, h.2.1, h.2.2.2.2.1⟩

/-! ## The history of a run -/

theorem opens_append (h1 h2 : List Event) : opens (h1 ++ h2) = opens h1 ++ opens h2 := by
  induction h1 with
  | nil => rfl
  | cons e es ih =>
    cases e <;> simp [opens, ih]

/-- `write_line` changes neither the configuration, nor the schedule, nor the
open events, nor the count of clock readings. -/
theorem write_line_frame (s : State) (input_line : Str) :
    (write_line s input_line).next_rotation = s.next_rotation ∧
    opens (write_line s input_line).history = opens s.history ∧
    (write_line s input_line).hour_rotate = s.hour_rotate ∧
    (write_line s input_line).min_rotate = s.min_rotate ∧
    (write_line s input_line).sec_rotate = s.sec_rotate ∧
    (write_line s input_line).output_directory_name = s.output_directory_name ∧
    (write_line s input_line).output_file_name_pattern = s.output_file_name_pattern ∧
    (write_line s input_line).reads = s.reads := by
  unfold write_line
  split
  · split <;> exact ⟨rfl, rfl, rfl, rfl, rfl, rfl, rfl, rfl⟩
  · split
    · simp [opens_append, opens]
    · exact ⟨rfl, rfl, rfl, rfl, rfl, rfl, rfl, rfl⟩

/-- `close_output_file_stream` adds no open event. -/
theorem close_output_file_stream_opens (s : State) :
    opens (close_output_file_stream s).state.history = opens s.history := by
  unfold close_output_file_stream
  split
  · rfl
  · simp only []
    split
    · rfl
    · split
      · simp [Res.state, opens_append, opens]
      · rfl

/-- What `new_output_file_stream` leaves unchanged when it throws. -/
theorem new_output_file_stream_thrown (env : Env) (s s1 : State) (e : Err)
    (h : new_output_file_stream env s = .thrown e s1) :
    s1.next_rotation = s.next_rotation ∧ s1.hour_rotate = s.hour_rotate ∧
    s1.min_rotate = s.min_rotate ∧ s1.sec_rotate = s.sec_rotate ∧
    s1.history = s.history ∧ s1.fs = s.fs ∧ s1.reads = s.reads + 1 ∧
    s1.output_directory_name = s.output_directory_name ∧
    s1.output_file_name_pattern = s.output_file_name_pattern := by
  unfold new_output_file_stream at h
  cases hname : derive_file_name s.output_file_name_pattern
      (localtime_r env.zone (to_time_t (env.clock s.reads))) with
  | none =>
    simp only [hname, Res.thrown.injEq] at h
    obtain ⟨_, rfl⟩ := h
    exact ⟨rfl, rfl, rfl, rfl, rfl, rfl, rfl, rfl, rfl⟩
  | some name =>
    simp only [hname, Bool.false_eq_true, if_false] at h
    split_ifs at h
    all_goals
      simp only [Res.thrown.injEq] at h
      obtain ⟨_, rfl⟩ := h
      exact ⟨rfl, rfl, rfl, rfl, rfl, rfl, rfl, rfl, rfl⟩

/-- `new_output_file_stream` keeps the schedule, and either adds no open
event or adds the one for the clock reading it took. -/
theorem new_output_file_stream_opens (env : Env) (s : State) :
    (new_output_file_stream env s).state.next_rotation = s.next_rotation ∧
    (new_output_file_stream env s).state.hour_rotate = s.hour_rotate ∧
    (new_output_file_stream env s).state.min_rotate = s.min_rotate ∧
    (new_output_file_stream env s).state.sec_rotate = s.sec_rotate ∧
    (opens (new_output_file_stream env s).state.history = opens s.history ∨
      ∃ p, opens (new_output_file_stream env s).state.history
        = opens s.history ++ [(env.clock s.reads, s.next_rotation, p)]) := by
  cases hr : new_output_file_stream env s with
  | ok s1 =>
    obtain ⟨_, _, _, _, hh, _, h1, h2, h3, h4, _⟩ := new_output_file_stream_ok env s s1 hr
    refine ⟨h1, h2, h3, h4, Or.inr ⟨s1.output_file_path, ?_⟩⟩
    simp only [Res.state, hh, opens_append, opens]
  | thrown e s1 =>
    obtain ⟨h1, h2, h3, h4, hh, _⟩ := new_output_file_stream_thrown env s s1 e hr
    exact ⟨h1, h2, h3, h4, Or.inl (by simp only [Res.state, hh])⟩

/-! ## Order of dates -/

/-- The year of the era does not decrease with the day of the era. -/
theorem yoe_mono (a b : Int) (h0 : 0 ≤ a) (hab : a ≤ b) (h1 : b ≤ 146096) :
    (a - a / 1460 + a / 36524 - a / 146096) / 365 ≤ (b - b / 1460 + b / 36524 - b / 146096) / 365 := by
  have hc1 : a / 146096 = 0 ∨ a / 146096 = 1 := by omega
  have hc2 : b / 146096 = 0 ∨ b / 146096 = 1 := by omega
  have hn : a - a / 1460 + a / 36524 - a / 146096 ≤ b - b / 1460 + b / 36524 - b / 146096 := by
    rcases hc1 with hc1 | hc1 <;> rcases hc2 with hc2 | hc2 <;> omega
  omega

/-- Month and day from the day of the year, in order. -/
theorem civil_parts_lt (era1 yoe1 doy1 era2 yoe2 doy2 : Int)
    (hy1 : 0 ≤ yoe1 ∧ yoe1 ≤ 399) (hd1 : 0 ≤ doy1 ∧ doy1 ≤ 365)
    (hy2 : 0 ≤ yoe2 ∧ yoe2 ≤ 399) (hd2 : 0 ≤ doy2 ∧ doy2 ≤ 365)
    (hlex : era1 < era2 ∨ (era1 = era2 ∧ (yoe1 < yoe2 ∨ (yoe1 = yoe2 ∧ doy1 < doy2)))) :
    (if (if (5 * doy1 + 2) / 153 < 10 then (5 * doy1 + 2) / 153 + 3 else (5 * doy1 + 2) / 153 - 9) ≤ 2
        then yoe1 + era1 * 400 + 1 else yoe1 + era1 * 400)
      < (if (if (5 * doy2 + 2) / 153 < 10 then (5 * doy2 + 2) / 153 + 3 else (5 * doy2 + 2) / 153 - 9) ≤ 2
        then yoe2 + era2 * 400 + 1 else yoe2 + era2 * 400) ∨
    ((if (if (5 * doy1 + 2) / 153 < 10 then (5 * doy1 + 2) / 153 + 3 else (5 * doy1 + 2) / 153 - 9) ≤ 2
        then yoe1 + era1 * 400 + 1 else yoe1 + era1 * 400)
      = (if (if (5 * doy2 + 2) / 153 < 10 then (5 * doy2 + 2) / 153 + 3 else (5 * doy2 + 2) / 153 - 9) ≤ 2
        then yoe2 + era2 * 400 + 1 else yoe2 + era2 * 400) ∧
      ((if (5 * doy1 + 2) / 153 < 10 then (5 * doy1 + 2) / 153 + 3 else (5 * doy1 + 2) / 153 - 9)
          < (if (5 * doy2 + 2) / 153 < 10 then (5 * doy2 + 2) / 153 + 3 else (5 * doy2 + 2) / 153 - 9) ∨
        ((if (5 * doy1 + 2) / 153 < 10 then (5 * doy1 + 2) / 153 + 3 else (5 * doy1 + 2) / 153 - 9)
            = (if (5 * doy2 + 2) / 153 < 10 then (5 * doy2 + 2) / 153 + 3 else (5 * doy2 + 2) / 153 - 9) ∧
          doy1 - (153 * ((5 * doy1 + 2) / 153) + 2) / 5 + 1
            < doy2 - (153 * ((5 * doy2 + 2) / 153) + 2) / 5 + 1))) := by
  split_ifs <;> omega

theorem civil_from_days_lt (z1 z2 : Int) (h : z1 < z2) :
    (civil_from_days z1).1 < (civil_from_days z2).1 ∨
    ((civil_from_days z1).1 = (civil_from_days z2).1 ∧
      ((civil_from_days z1).2.1 < (civil_from_days z2).2.1 ∨
        ((civil_from_days z1).2.1 = (civil_from_days z2).2.1 ∧
          (civil_from_days z1).2.2 < (civil_from_days z2).2.2))) := by
  have hb1 := doy_bounds ((z1 + 719468) - (z1 + 719468) / 146097 * 146097) (by omega) (by omega) _ rfl
  have hb2 := doy_bounds ((z2 + 719468) - (z2 + 719468) / 146097 * 146097) (by omega) (by omega) _ rfl
  have hm : (z1 + 719468) / 146097 = (z2 + 719468) / 146097 → _ :=
    fun _ => yoe_mono ((z1 + 719468) - (z1 + 719468) / 146097 * 146097)
      ((z2 + 719468) - (z2 + 719468) / 146097 * 146097) (by omega) (by omega) (by omega)
  have hera : (z1 + 719468) / 146097 ≤ (z2 + 719468) / 146097 := by omega
  simp only [civil_from_days]
  apply civil_parts_lt _ _ _ _ _ _ ⟨hb1.1, hb1.2.1⟩ ⟨hb1.2.2.1, hb1.2.2.2⟩ ⟨hb2.1, hb2.2.1⟩
    ⟨hb2.2.2.1, hb2.2.2.2⟩
  generalize (z1 + 719468) / 146097 = era1 at *
  generalize (z2 + 719468) / 146097 = era2 at *
  generalize hdoe1 : z1 + 719468 - era1 * 146097 = doe1 at *
  generalize hdoe2 : z2 + 719468 - era2 * 146097 = doe2 at *
  generalize (doe1 - doe1 / 1460 + doe1 / 36524 - doe1 / 146096) / 365 = yoe1 at *
  generalize (doe2 - doe2 / 1460 + doe2 / 36524 - doe2 / 146096) / 365 = yoe2 at *
  by_cases he : era1 = era2
  · have := hm he
    omega
  · omega

/-! ## Order of times and of their texts -/

/-- Local time that advances gives broken-down times in calendar order. -/
theorem localtime_r_before (z : Zone) (t1 t2 : Int)
    (h : t1 + z.gmtoff t1 < t2 + z.gmtoff t2) :
    tm_before (localtime_r z t1) (localtime_r z t2) := by
  rcases lt_or_le ((t1 + z.gmtoff t1) / 86400) ((t2 + z.gmtoff t2) / 86400)
    with hd | hd
  · have hc := civil_from_days_lt _ _ hd
    simp only [tm_before, localtime_r]
    omega
  · have he : (t1 + z.gmtoff t1) / 86400 = (t2 + z.gmtoff t2) / 86400 := by
      omega
    simp only [tm_before, localtime_r]
    rw [he]
    refine Or.inr ⟨rfl, Or.inr ⟨rfl, Or.inr ⟨rfl, ?_⟩⟩⟩
    omega

theorem localtime_r_ranges (z : Zone) (tt : Int) :
    (0 ≤ (localtime_r z tt).tm_mon ∧ (localtime_r z tt).tm_mon ≤ 11) ∧
    (1 ≤ (localtime_r z tt).tm_mday ∧ (localtime_r z tt).tm_mday ≤ 31) ∧
    (0 ≤ (localtime_r z tt).tm_hour ∧ (localtime_r z tt).tm_hour ≤ 23) ∧
    (0 ≤ (localtime_r z tt).tm_min ∧ (localtime_r z tt).tm_min ≤ 59) ∧
    (0 ≤ (localtime_r z tt).tm_sec ∧ (localtime_r z tt).tm_sec ≤ 60) := by
  have hc := civil_from_days_ranges ((tt + z.gmtoff tt) / 86400)
  simp only [localtime_r]
  omega

theorem digit_char_toNat (k : Nat) (h : k < 10) : (digit_char k).toNat = 48 + k := by
  interval_cases k <;> rfl

theorem lex_lt_irrefl (a : Str) : lex_lt a a = false := by
  induction a with
  | nil => rfl
  | cons c cs ih => simp [lex_lt, ih]

theorem lex_lt_append_same (a r1 r2 : Str) : lex_lt (a ++ r1) (a ++ r2) = lex_lt r1 r2 := by
  induction a with
  | nil => rfl
  | cons c cs ih => simp [lex_lt, ih]

theorem lex_lt_append_of_lt (a b r1 r2 : Str) (hlen : a.length = b.length)
    (h : lex_lt a b = true) : lex_lt (a ++ r1) (b ++ r2) = true := by
  induction a generalizing b with
  | nil =>
    cases b with
    | nil => simp [lex_lt] at h
    | cons d ds => simp at hlen
  | cons c cs ih =>
    cases b with
    | nil => simp at hlen
    | cons d ds =>
      simp only [List.length_cons, Nat.add_right_cancel_iff] at hlen
      simp only [lex_lt, List.cons_append] at h ⊢
      split_ifs at h ⊢
      · rfl
      · exact ih ds hlen h

theorem two_digits_lt (a b : Int) (h0 : 0 ≤ a) (hab : a < b) (h1 : b ≤ 99) :
    lex_lt (two_digits a) (two_digits b) = true := by
  simp only [two_digits, lex_lt, digit_char_toNat (a.toNat / 10) (by omega),
    digit_char_toNat (a.toNat % 10) (by omega), digit_char_toNat (b.toNat / 10) (by omega),
    digit_char_toNat (b.toNat % 10) (by omega)]
  split_ifs <;> first | rfl | omega

theorem four_digits_lt (a b : Int) (h0 : 0 ≤ a) (hab : a < b) (h1 : b ≤ 9999) :
    lex_lt (four_digits a) (four_digits b) = true := by
  simp only [four_digits, lex_lt, digit_char_toNat (a.toNat / 1000) (by omega),
    digit_char_toNat (a.toNat / 100 % 10) (by omega),
    digit_char_toNat (a.toNat / 10 % 10) (by omega),
    digit_char_toNat (a.toNat % 10) (by omega), digit_char_toNat (b.toNat / 1000) (by omega),
    digit_char_toNat (b.toNat / 100 % 10) (by omega),
    digit_char_toNat (b.toNat / 10 % 10) (by omega),
    digit_char_toNat (b.toNat % 10) (by omega)]
  split_ifs <;> first | rfl | omega

/-- With four-digit years, times in calendar order have texts in
lexicographic order. -/
theorem stamp_lt (a b : tm) (h : tm_before a b)
    (ya : 0 ≤ a.tm_year + 1900) (yb : b.tm_year + 1900 ≤ 9999)
    (mona : 0 ≤ a.tm_mon) (monb : b.tm_mon ≤ 11) (da : 0 ≤ a.tm_mday) (db : b.tm_mday ≤ 31)
    (ha : 0 ≤ a.tm_hour) (hb : b.tm_hour ≤ 23) (mia : 0 ≤ a.tm_min) (mib : b.tm_min ≤ 59)
    (sa : 0 ≤ a.tm_sec) (sb : b.tm_sec ≤ 60) :
    lex_lt (stamp a) (stamp b) = true := by
  simp only [stamp, List.append_assoc]
  rcases h with h | ⟨e1, h⟩
  · exact lex_lt_append_of_lt _ _ _ _ rfl (four_digits_lt _ _ ya (by omega) yb)
  rw [e1, lex_lt_append_same, lex_lt_append_same]
  rcases h with h | ⟨e2, h⟩
  · exact lex_lt_append_of_lt _ _ _ _ rfl (two_digits_lt _ _ (by omega) (by omega) (by omega))
  rw [e2, lex_lt_append_same, lex_lt_append_same]
  rcases h with h | ⟨e3, h⟩
  · exact lex_lt_append_of_lt _ _ _ _ rfl (two_digits_lt _ _ (by omega) (by omega) (by omega))
  rw [e3, lex_lt_append_same, lex_lt_append_same]
  rcases h with h | ⟨e4, h⟩
  · exact lex_lt_append_of_lt _ _ _ _ rfl (two_digits_lt _ _ (by omega) (by omega) (by omega))
  rw [e4, lex_lt_append_same, lex_lt_append_same]
  rcases h with h | ⟨e5, h⟩
  · exact lex_lt_append_of_lt _ _ _ _ rfl (two_digits_lt _ _ (by omega) (by omega) (by omega))
  rw [e5, lex_lt_append_same, lex_lt_append_same]
  exact two_digits_lt _ _ (by omega) (by omega) (by omega)

/-! ## The open events of a run -/

theorem derive_file_name_some (pattern : Str) (t : tm) (name : Str)
    (h : derive_file_name pattern t = some name) :
    ∃ p, find placeholder pattern = some p ∧ name = replace pattern p 4 (timestamp_text t) := by
  unfold derive_file_name at h
  cases hf : find placeholder pattern with
  | none => simp [hf] at h
  | some p =>
    simp only [hf, Option.some.injEq] at h
    exact ⟨p, rfl, h.symm⟩

/-- Schedule then open, as start-up and every rotation do it: the
configuration stays, the schedule is recomputed, and at most one open event
is added, for the second clock reading. -/
theorem calc_then_open (env : Env) (s : State) :
    (new_output_file_stream env (calc_next_rotation env s)).state.hour_rotate = s.hour_rotate ∧
    (new_output_file_stream env (calc_next_rotation env s)).state.min_rotate = s.min_rotate ∧
    (new_output_file_stream env (calc_next_rotation env s)).state.sec_rotate = s.sec_rotate ∧
    (new_output_file_stream env (calc_next_rotation env s)).state.output_directory_name
      = s.output_directory_name ∧
    (new_output_file_stream env (calc_next_rotation env s)).state.output_file_name_pattern
      = s.output_file_name_pattern ∧
    (new_output_file_stream env (calc_next_rotation env s)).state.next_rotation
      = rotate_instant env.zone s.hour_rotate s.min_rotate s.sec_rotate
          (to_time_t (env.clock s.reads)) ∧
    (opens (new_output_file_stream env (calc_next_rotation env s)).state.history = opens s.history ∨
      ∃ p, find placeholder s.output_file_name_pattern = some p ∧
        opens (new_output_file_stream env (calc_next_rotation env s)).state.history
          = opens s.history ++ [(env.clock (s.reads + 1),
              rotate_instant env.zone s.hour_rotate s.min_rotate s.sec_rotate
                (to_time_t (env.clock s.reads)),
              s.output_directory_name ++ "/".toList
                ++ replace s.output_file_name_pattern p 4
                    (open_text env.zone (env.clock (s.reads + 1))))]) := by
  cases hr : new_output_file_stream env (calc_next_rotation env s) with
  | ok s1 =>
    obtain ⟨⟨name, hname, hpath⟩, _, _, _, hh, _, h1, h2, h3, h4, h5, h6⟩ :=
      new_output_file_stream_ok env _ s1 hr
    obtain ⟨p, hp, hrep⟩ := derive_file_name_some _ _ _ hname
    refine ⟨h2, h3, h4, h5, h6, h1, Or.inr ⟨p, hp, ?_⟩⟩
    simp only [Res.state, hh, opens_append, opens, hpath, hrep]
    rfl
  | thrown e s1 =>
    obtain ⟨h1, h2, h3, h4, hh, _, _, h5, h6⟩ := new_output_file_stream_thrown env _ s1 e hr
    exact ⟨h2, h3, h4, h5, h6, h1, Or.inl (by simp only [Res.state, hh]; rfl)⟩

/-- One iteration of the loop: the configuration stays; either the schedule
and the open events stay, or the iteration was due, the schedule was
recomputed from the second clock reading and at most one open event was
added, for the third clock reading. -/
theorem loop_body_effect (env : Env) (s : State) (input_line : Str) :
    (loop_body env s input_line).state.hour_rotate = s.hour_rotate ∧
    (loop_body env s input_line).state.min_rotate = s.min_rotate ∧
    (loop_body env s input_line).state.sec_rotate = s.sec_rotate ∧
    (loop_body env s input_line).state.output_directory_name = s.output_directory_name ∧
    (loop_body env s input_line).state.output_file_name_pattern = s.output_file_name_pattern ∧
    (((loop_body env s input_line).state.next_rotation = s.next_rotation ∧
        opens (loop_body env s input_line).state.history = opens s.history) ∨
      (env.clock s.reads > s.next_rotation ∧
        (loop_body env s input_line).state.next_rotation
          = rotate_instant env.zone s.hour_rotate s.min_rotate s.sec_rotate
              (to_time_t (env.clock (s.reads + 1))) ∧
        (opens (loop_body env s input_line).state.history = opens s.history ∨
          ∃ p, find placeholder s.output_file_name_pattern = some p ∧
            opens (loop_body env s input_line).state.history
              = opens s.history ++ [(env.clock (s.reads + 2),
                  rotate_instant env.zone s.hour_rotate s.min_rotate s.sec_rotate
                    (to_time_t (env.clock (s.reads + 1))),
                  s.output_directory_name ++ "/".toList
                    ++ replace s.output_file_name_pattern p 4
                        (open_text env.zone (env.clock (s.reads + 2))))]))) := by
  by_cases hd : env.clock s.reads > s.next_rotation
  · have hcf := close_output_file_stream_frame { s with reads := s.reads + 1 }
    have hco := close_output_file_stream_opens { s with reads := s.reads + 1 }
    cases hc : close_output_file_stream { s with reads := s.reads + 1 } with
    | thrown e s1 =>
      rw [hc] at hcf hco
      simp only [Res.state] at hcf hco
      have hl : (loop_body env s input_line).state = s1 := by
        simp only [loop_body, hd, if_true, rotation, hc, Res.andThen, Res.state]
      rw [hl]
      exact ⟨hcf.1, hcf.2.1, hcf.2.2.1, hcf.2.2.2.2.2.1, hcf.2.2.2.2.2.2.1,
        Or.inl ⟨hcf.2.2.2.2.1, hco⟩⟩
    | ok s1 =>
      rw [hc] at hcf hco
      simp only [Res.state] at hcf hco
      obtain ⟨c1, c2, c3, c4, c5, c6, c7, _, _⟩ := hcf
      have hno := calc_then_open env s1
      have e12 : s.reads + 1 + 1 = s.reads + 2 := rfl
      rw [c1, c2, c3, c4, c6, c7, hco, e12] at hno
      have hws : (loop_body env s input_line).state
          = match new_output_file_stream env (calc_next_rotation env s1) with
            | .ok s2 => write_line s2 input_line
            | .thrown _ s2 => s2 := by
        simp only [loop_body, hd, if_true, rotation, hc, Res.andThen]
        cases new_output_file_stream env (calc_next_rotation env s1) <;> rfl
      have hsame : (loop_body env s input_line).state.hour_rotate
            = (new_output_file_stream env (calc_next_rotation env s1)).state.hour_rotate ∧
          (loop_body env s input_line).state.min_rotate
            = (new_output_file_stream env (calc_next_rotation env s1)).state.min_rotate ∧
          (loop_body env s input_line).state.sec_rotate
            = (new_output_file_stream env (calc_next_rotation env s1)).state.sec_rotate ∧
          (loop_body env s input_line).state.output_directory_name
            = (new_output_file_stream env
                (calc_next_rotation env s1)).state.output_directory_name ∧
          (loop_body env s input_line).state.output_file_name_pattern
            = (new_output_file_stream env
                (calc_next_rotation env s1)).state.output_file_name_pattern ∧
          (loop_body env s input_line).state.next_rotation
            = (new_output_file_stream env (calc_next_rotation env s1)).state.next_rotation ∧
          opens (loop_body env s input_line).state.history
            = opens (new_output_file_stream env (calc_next_rotation env s1)).state.history := by
        rw [hws]
        cases new_output_file_stream env (calc_next_rotation env s1) with
        | ok s2 =>
          have hw := write_line_frame s2 input_line
          exact ⟨hw.2.2.1, hw.2.2.2.1, hw.2.2.2.2.1, hw.2.2.2.2.2.1, hw.2.2.2.2.2.2.1, hw.1,
            hw.2.1⟩
        | thrown e s2 => exact ⟨rfl, rfl, rfl, rfl, rfl, rfl, rfl⟩
      obtain ⟨e1, e2, e3, e4, e5, e6, e7⟩ := hsame
      rw [e1, e2, e3, e4, e5, e6, e7]
      exact ⟨hno.1, hno.2.1, hno.2.2.1, hno.2.2.2.1, hno.2.2.2.2.1,
        Or.inr ⟨hd, hno.2.2.2.2.2.1, hno.2.2.2.2.2.2⟩⟩
  · have hl : (loop_body env s input_line).state
        = write_line { s with reads := s.reads + 1 } input_line := by
      simp only [loop_body, hd, if_false, Res.andThen, Res.state]
    have hw := write_line_frame { s with reads := s.reads + 1 } input_line
    rw [hl]
    exact ⟨hw.2.2.1, hw.2.2.2.1, hw.2.2.2.2.1, hw.2.2.2.2.2.1, hw.2.2.2.2.2.2.1,
      Or.inl ⟨hw.1, hw.2.1⟩⟩

theorem new_output_file_stream_reads (env : Env) (s : State) :
    (new_output_file_stream env s).state.reads = s.reads + 1 := by
  cases hr : new_output_file_stream env s with
  | ok s1 => exact (new_output_file_stream_ok env s s1 hr).2.2.2.2.2.1
  | thrown e s1 => exact (new_output_file_stream_thrown env s s1 e hr).2.2.2.2.2.2.1

/-- Every iteration of the loop reads the clock at least once. -/
theorem loop_body_reads (env : Env) (s : State) (input_line : Str) :
    s.reads + 1 ≤ (loop_body env s input_line).state.reads := by
  by_cases hd : env.clock s.reads > s.next_rotation
  · have hcf := close_output_file_stream_frame { s with reads := s.reads + 1 }
    cases hc : close_output_file_stream { s with reads := s.reads + 1 } with
    | thrown e s1 =>
      rw [hc] at hcf
      simp only [Res.state] at hcf
      have hl : (loop_body env s input_line).state = s1 := by
        simp only [loop_body, hd, if_true, rotation, hc, Res.andThen, Res.state]
      rw [hl, hcf.2.2.2.1]
    | ok s1 =>
      rw [hc] at hcf
      simp only [Res.state] at hcf
      have hn := new_output_file_stream_reads env (calc_next_rotation env s1)
      have hc1 : (calc_next_rotation env s1).reads = s1.reads + 1 := rfl
      rw [hc1, hcf.2.2.2.1] at hn
      have hws : (loop_body env s input_line).state
          = match new_output_file_stream env (calc_next_rotation env s1) with
            | .ok s2 => write_line s2 input_line
            | .thrown _ s2 => s2 := by
        simp only [loop_body, hd, if_true, rotation, hc, Res.andThen]
        cases new_output_file_stream env (calc_next_rotation env s1) <;> rfl
      rw [hws]
      cases hr : new_output_file_stream env (calc_next_rotation env s1) with
      | ok s2 =>
        rw [hr] at hn
        simp only [Res.state] at hn
        simp only []
        rw [(write_line_frame s2 input_line).2.2.2.2.2.2.2, hn]
        omega
      | thrown e s2 =>
        rw [hr] at hn
        simp only [Res.state] at hn
        simp only []
        omega
  · have hl : (loop_body env s input_line).state
        = write_line { s with reads := s.reads + 1 } input_line := by
      simp only [loop_body, hd, if_false, Res.andThen, Res.state]
    rw [hl, (write_line_frame _ input_line).2.2.2.2.2.2.2]

/-- One iteration of the loop keeps the invariant of the order of the open
events, whatever instant the schedule computes. -/
theorem loop_body_order_inv (env : Env) (s : State) (input_line : Str)
    (hclock : ∀ i j, i ≤ j → env.clock i ≤ env.clock j)
    (hinv : order_inv env s) :
    order_inv env (loop_body env s input_line).state := by
  obtain ⟨hdue, hpair⟩ := hinv
  obtain ⟨_, _, _, _, _, hcase⟩ := loop_body_effect env s input_line
  have hreads := loop_body_reads env s input_line
  rcases hcase with ⟨hn, ho⟩ | ⟨hd, hn, ho⟩
  · refine ⟨?_, by rw [ho]; exact hpair⟩
    rw [ho, hn]
    intro e he
    rcases hdue e he with h | ⟨i, hi, h⟩
    · exact Or.inl h
    · exact Or.inr ⟨i, by omega, h⟩
  · have hold : ∀ e ∈ opens s.history, ∃ i, i < s.reads + 1 ∧ e.2.1 < env.clock i := by
      intro e he
      rcases hdue e he with h | ⟨i, hi, h⟩
      · exact ⟨s.reads, by omega, by omega⟩
      · exact ⟨i, by omega, h⟩
    rcases ho with ho | ⟨p, _, ho⟩
    · refine ⟨?_, by rw [ho]; exact hpair⟩
      rw [ho]
      intro e he
      obtain ⟨i, hi, h⟩ := hold e he
      exact Or.inr ⟨i, by omega, h⟩
    · refine ⟨?_, ?_⟩
      · rw [ho]
        intro e he
        rcases List.mem_append.1 he with he | he
        · obtain ⟨i, hi, h⟩ := hold e he
          exact Or.inr ⟨i, by omega, h⟩
        · simp only [List.mem_singleton] at he
          subst he
          exact Or.inl (le_of_eq hn.symm)
      · rw [ho, List.pairwise_append]
        refine ⟨hpair, List.pairwise_singleton _ _, ?_⟩
        intro a ha b hb
        simp only [List.mem_singleton] at hb
        subst hb
        obtain ⟨i, hi, h⟩ := hold a ha
        have := hclock i (s.reads + 2) (by omega)
        simp only
        omega

/-- One iteration of the loop keeps the invariant of the derived names. -/
theorem loop_body_names_inv (env : Env) (dir pattern : Str) (s : State) (input_line : Str)
    (hinv : names_inv env dir pattern s) :
    names_inv env dir pattern (loop_body env s input_line).state := by
  obtain ⟨c4, c5, hnames⟩ := hinv
  obtain ⟨_, _, _, k4, k5, hcase⟩ := loop_body_effect env s input_line
  refine ⟨by rw [k4, c4], by rw [k5, c5], ?_⟩
  rcases hcase with ⟨_, ho⟩ | ⟨_, _, ho | ⟨p, hp, ho⟩⟩
  · rw [ho]; exact hnames
  · rw [ho]; exact hnames
  · rw [ho]
    intro e he
    rcases List.mem_append.1 he with he | he
    · exact hnames e he
    · simp only [List.mem_singleton] at he
      subst he
      exact ⟨⟨_, rfl⟩, p, by rw [← c5]; exact hp, by rw [c4, c5]⟩

/-- One iteration of the loop keeps the invariant of a run. -/
theorem loop_body_run_inv (env : Env) (dir pattern : Str) (s : State)
    (input_line : Str) (hclock : ∀ i j, i ≤ j → env.clock i ≤ env.clock j)
    (hinv : run_inv env dir pattern s) :
    run_inv env dir pattern (loop_body env s input_line).state :=
  ⟨loop_body_order_inv env s input_line hclock hinv.1,
    loop_body_names_inv env dir pattern s input_line hinv.2⟩

/-- A property that every iteration keeps holds after the loop. -/
theorem main_loop_keeps (env : Env) (P : State → Prop)
    (hstep : ∀ s input_line, P s → P (loop_body env s input_line).state)
    (lines : List Str) (s : State) (h : P s) : P (main_loop env s lines) := by
  induction lines generalizing s with
  | nil => exact h
  | cons l ls ih => exact ih _ (hstep s l h)

/-- Start-up establishes the invariant of the derived names. -/
theorem startup_names_inv (env : Env) (s : State) (hhist : s.history = []) :
    names_inv env s.output_directory_name s.output_file_name_pattern
      (new_output_file_stream env (calc_next_rotation env s)).state := by
  obtain ⟨_, _, _, k4, k5, _, ho⟩ := calc_then_open env s
  refine ⟨k4, k5, ?_⟩
  rcases ho with ho | ⟨p, hp, ho⟩
  · rw [ho, hhist]
    intro e he
    simp [opens] at he
  · rw [ho, hhist]
    intro e he
    simp only [opens, List.nil_append, List.mem_singleton] at he
    subst he
    exact ⟨⟨_, rfl⟩, p, hp, rfl⟩

/-- Start-up establishes the invariant of the order of the open events. -/
theorem startup_order_inv (env : Env) (s : State) (hhist : s.history = []) :
    order_inv env (new_output_file_stream env (calc_next_rotation env s)).state := by
  obtain ⟨_, _, _, _, _, hn, ho⟩ := calc_then_open env s
  rcases ho with ho | ⟨p, _, ho⟩
  · refine ⟨?_, ?_⟩
    · rw [ho, hhist]
      intro e he
      simp [opens] at he
    · rw [ho, hhist]
      simp [opens]
  · refine ⟨?_, ?_⟩
    · rw [ho, hhist]
      intro e he
      simp only [opens, List.nil_append, List.mem_singleton] at he
      subst he
      exact Or.inl (le_of_eq hn.symm)
    · rw [ho, hhist]
      simp [opens]

/-- The open events of a whole run are those of a state that satisfies every
property which start-up establishes and every iteration keeps. -/
theorem run_opens (env : Env) (s : State) (lines : List Str) (P : State → Prop)
    (hstart : P (new_output_file_stream env (calc_next_rotation env s)).state)
    (hstep : ∀ s1 input_line, P s1 → P (loop_body env s1 input_line).state)
    (hhist : s.history = []) :
    opens (run env s lines).state.history = [] ∨
    ∃ sf, P sf ∧ opens (run env s lines).state.history = opens sf.history := by
  unfold run startup
  split_ifs
  · left
    simp [Res.andThen, Res.state, hhist, opens]
  · left
    simp [Res.andThen, Res.state, hhist, opens]
  · right
    cases hr : new_output_file_stream env (calc_next_rotation env s) with
    | thrown e s1 =>
      rw [hr] at hstart
      exact ⟨s1, hstart, rfl⟩
    | ok s1 =>
      rw [hr] at hstart
      refine ⟨main_loop env s1 lines, main_loop_keeps env P hstep lines s1 hstart, ?_⟩
      simp only [Res.andThen]
      exact close_output_file_stream_opens _

/-! ## Naming -/

theorem replace_injective (pattern : Str) (p n : Nat) (t1 t2 : Str)
    (h : replace pattern p n t1 = replace pattern p n t2) : t1 = t2 := by
  unfold replace at h
  rw [List.append_assoc, List.append_assoc] at h
  exact List.append_cancel_right (List.append_cancel_left h)

/-- C7, as the code has it: in a run whose clock never steps back, with
four-digit local years, the timestamp texts substituted at successive open
events are strictly increasing in lexicographic order and no two open events
derive the same final path, provided every open read the clock in a second
before the second of the rotation instant that was in force for it, and local
time did not step back from one open of the run to a later one. Every final
path is the directory, a slash and the pattern with its first placeholder
replaced by that text. -/
theorem open_texts_strictly_increasing (env : Env) (s : State) (lines : List Str)
    (hclock : ∀ i j, i ≤ j → env.clock i ≤ env.clock j)
    (hhist : s.history = [])
    (hbefore : ∀ e ∈ opens (run env s lines).state.history,
      to_time_t e.1 < to_time_t e.2.1)
    (hzone : ∀ a ∈ opens (run env s lines).state.history,
      ∀ b ∈ opens (run env s lines).state.history, to_time_t a.1 < to_time_t b.1 →
        to_time_t a.1 + env.zone.gmtoff (to_time_t a.1)
          < to_time_t b.1 + env.zone.gmtoff (to_time_t b.1))
    (hyear : ∀ e ∈ opens (run env s lines).state.history,
      0 ≤ (localtime_r env.zone (to_time_t e.1)).tm_year + 1900 ∧
      (localtime_r env.zone (to_time_t e.1)).tm_year + 1900 ≤ 9999) :
    (opens (run env s lines).state.history).Pairwise
      (fun a b => lex_lt (open_text env.zone a.1) (open_text env.zone b.1) = true
        ∧ a.2.2 ≠ b.2.2) ∧
    ∀ e ∈ opens (run env s lines).state.history,
      ∃ p, find placeholder s.output_file_name_pattern = some p ∧
        e.2.2 = s.output_directory_name ++ "/".toList
          ++ replace s.output_file_name_pattern p 4 (open_text env.zone e.1) := by
  rcases run_opens env s lines
      (run_inv env s.output_directory_name s.output_file_name_pattern)
      ⟨startup_order_inv env s hhist, startup_names_inv env s hhist⟩
      (fun s1 l h => loop_body_run_inv env _ _ s1 l hclock h) hhist
    with hnil | ⟨sf, hinv, hop⟩
  · rw [hnil]
    exact ⟨List.Pairwise.nil, fun e he => by simp at he⟩
  · obtain ⟨⟨_, hpair⟩, _, _, hnames⟩ := hinv
    rw [hop] at hbefore hyear hzone ⊢
    refine ⟨?_, fun e he => (hnames e he).2⟩
    refine List.Pairwise.imp_of_mem ?_ hpair
    intro a b ha hb hab
    obtain ⟨_, pa, hpa, hpatha⟩ := hnames a ha
    obtain ⟨_, pb, hpb, hpathb⟩ := hnames b hb
    have hlt : to_time_t a.1 < to_time_t b.1 :=
      lt_of_lt_of_le (hbefore a ha) (to_time_t_mono _ _ (le_of_lt hab))
    have hbef := localtime_r_before env.zone _ _ (hzone a ha b hb hlt)
    have ra := localtime_r_ranges env.zone (to_time_t a.1)
    have rb := localtime_r_ranges env.zone (to_time_t b.1)
    have hya := hyear a ha
    have hyb := hyear b hb
    have htext : lex_lt (open_text env.zone a.1) (open_text env.zone b.1) = true := by
      unfold open_text
      rw [timestamp_text_eq_stamp _ hya ra.1 ra.2.1 ra.2.2.1 ra.2.2.2.1 ra.2.2.2.2,
        timestamp_text_eq_stamp _ hyb rb.1 rb.2.1 rb.2.2.1 rb.2.2.2.1 rb.2.2.2.2]
      exact stamp_lt _ _ hbef hya.1 hyb.2 ra.1.1 rb.1.2 (by omega) rb.2.1.2 ra.2.2.1.1
        rb.2.2.1.2 ra.2.2.2.1.1 rb.2.2.2.1.2 ra.2.2.2.2.1 rb.2.2.2.2.2
    refine ⟨htext, ?_⟩
    intro hpath
    rw [hpatha, hpathb] at hpath
    have hpp : pa = pb := by
      rw [hpa] at hpb
      exact Option.some.inj hpb
    subst hpp
    have hrep := List.append_cancel_left hpath
    have := replace_injective _ _ _ _ _ hrep
    rw [this, lex_lt_irrefl] at htext
    cases htext

/-- C7 witness: on `env_winter`, a host with daylight saving, with rotation
time 11:00:00 and four lines, the output is opened at 10:59:58 and, after the
rotation, at 11:00:01. -/
theorem open_texts_strictly_increasing_witness :
    (opens (run env_winter state_11_00_00 four_lines).state.history).Pairwise
      (fun a b => lex_lt (open_text cet_2024 a.1) (open_text cet_2024 b.1) = true
        ∧ a.2.2 ≠ b.2.2) ∧
    (opens (run env_winter state_11_00_00 four_lines).state.history).map
        (fun e => open_text cet_2024 e.1)
      = ["2024-01-02_10-59-58".toList, "2024-01-02_11-00-01".toList] :=
  ⟨(open_texts_strictly_increasing env_winter state_11_00_00 four_lines
    (fun i j hij => by simp only [env_winter]; omega)
    rfl (by decide) (by decide) (by decide)).1, by decide⟩

/-- C7 as stated fails, in two ways. On `env_same_second` (clock readings in
non-decreasing order, pattern `%TS%.td`) the output is opened at 10:00:00.0,
and the rotation triggered by the line read at 10:00:00.5 opens the next
output at 10:00:00.7: both open events substitute the text
`2024-01-02_10-00-00` and derive the same final path. On `env_fall_back` (a
Central European host on the night clocks are set back, clock readings in
increasing order) the output is opened at 02:30:01 summer time, well before
the rotation instant 02:45:00, and the rotation triggered by the line read 35
minutes later opens the next output at 02:05:02 winter time, again before the
rotation instant then in force: the second text is smaller than the first. -/
theorem open_texts_not_increasing :
    ((opens (run env_same_second state_10_00_00 [['1'], ['2']]).state.history).map
        (fun e => (open_text utc e.1, e.2.2))
      = [("2024-01-02_10-00-00".toList, "./dump/2024-01-02_10-00-00.td".toList),
         ("2024-01-02_10-00-00".toList, "./dump/2024-01-02_10-00-00.td".toList)] ∧
      lex_lt "2024-01-02_10-00-00".toList "2024-01-02_10-00-00".toList = false ∧
      (∀ i, i < 6 → env_same_second.clock i ≤ env_same_second.clock (i + 1))) ∧
    ((opens (run env_fall_back state_02_45_00 [['1'], ['2']]).state.history).map
        (fun e => (open_text cet_2024 e.1, to_time_t e.1, to_time_t e.2.1))
      = [("2024-10-27_02-30-01".toList, 1729989001, 1729989900),
         ("2024-10-27_02-05-02".toList, 1729991102, 1729993500)] ∧
      lex_lt "2024-10-27_02-30-01".toList "2024-10-27_02-05-02".toList = false ∧
      (∀ i, i < 6 → env_fall_back.clock i < env_fall_back.clock (i + 1))) := by
  decide

/-! ## The files of a run -/

end LogRotator
